import Mathlib

/-!
Shallow embedding of the OLS regression core of the `vs_code_statistical_analysis`
extension (`src/utils/dummyVariableUtils.ts`), together with proofs settling the
frozen claims about it.

Modelling conventions:
* JavaScript numbers are modelled with exact rational arithmetic (`ℚ`), plus an
  explicit `nan` marker where the code can produce NaN (via `Math.sqrt` of a
  negative number or an out-of-bounds array read, i.e. `undefined`).
  Floating-point rounding and infinities are outside the model; every division
  performed by the embedded code is guarded by a nonzero test of its divisor.
* The transcendental primitives `Math.sqrt`, `Math.exp`, `Math.log` are
  abstracted into a structure `RealOps` carrying the sign facts the proofs use,
  so that every theorem holds for the true real-valued interpretation.
* JavaScript objects are modelled as association lists in insertion order
  (`objSet` overwrites in place like a JS property write, `objGet?` looks a key
  up), and `parseFloat` is an arbitrary parameter `pf : String → Option ℚ`
  (`none` plays the role of NaN).
* File reading and CSV parsing are outside the core: all functions take the
  parsed table `rows : List (List String)` directly, exactly as the code sees
  it after `parseCSV`.
-/

/-- A JavaScript number under real-number semantics: either an exact rational
value or the error value NaN.  `undefined` entering arithmetic also behaves
like NaN and is modelled by it. -/
inductive JsNum where
  | nan : JsNum
  | num (q : ℚ) : JsNum
deriving DecidableEq, Repr

namespace JsNum

/-- JS addition: NaN-propagating. -/
def add : JsNum → JsNum → JsNum
  | num a, num b => num (a + b)
  | _, _ => nan

/-- JS subtraction: NaN-propagating. -/
def sub : JsNum → JsNum → JsNum
  | num a, num b => num (a - b)
  | _, _ => nan

/-- JS multiplication: NaN-propagating. -/
def mul : JsNum → JsNum → JsNum
  | num a, num b => num (a * b)
  | _, _ => nan

/-- JS division.  Division by zero yields an infinity in JS; the model collapses
it to `nan`.  Every division the embedded code performs tests its divisor
first, so the choice is immaterial (and is proved so where it matters). -/
def div : JsNum → JsNum → JsNum
  | num a, num b => if b = 0 then nan else num (a / b)
  | _, _ => nan

instance : Add JsNum := ⟨add⟩
instance : Sub JsNum := ⟨sub⟩
instance : Mul JsNum := ⟨mul⟩
instance : Div JsNum := ⟨div⟩

/-- JS comparison `x > q` against a rational constant: false when `x` is NaN. -/
def gtq (x : JsNum) (q : ℚ) : Bool :=
  match x with
  | nan => false
  | num a => decide (q < a)

@[simp] theorem add_num (a b : ℚ) : (num a) + (num b) = num (a + b) := rfl

@[simp] theorem sub_num (a b : ℚ) : (num a) - (num b) = num (a - b) := rfl

@[simp] theorem mul_num (a b : ℚ) : (num a) * (num b) = num (a * b) := rfl

@[simp] theorem nan_add (x : JsNum) : nan + x = nan := rfl

@[simp] theorem add_nan (x : JsNum) : x + nan = nan := by cases x <;> rfl

@[simp] theorem nan_mul (x : JsNum) : nan * x = nan := rfl

@[simp] theorem mul_nan (x : JsNum) : x * nan = nan := by cases x <;> rfl

@[simp] theorem nan_sub (x : JsNum) : nan - x = nan := rfl

@[simp] theorem sub_nan (x : JsNum) : x - nan = nan := by cases x <;> rfl

@[simp] theorem num_ne_nan (q : ℚ) : num q ≠ nan := by simp

@[simp] theorem div_num_num (a b : ℚ) :
    (num a) / (num b) = if b = 0 then nan else num (a / b) := rfl

end JsNum

/-- The transcendental primitives of the JS `Math` library, abstracted together
with the sign facts the development needs.  The real interpretation
(`Real.sqrt`, `Real.exp`, `Real.log` restricted to the rationals the code feeds
them) satisfies all three fields, so every theorem below holds for it. -/
structure RealOps where
  sqrt : ℚ → ℚ
  exp : ℚ → ℚ
  log : ℚ → ℚ
  sqrt_nonneg : ∀ q, 0 ≤ sqrt q
  exp_pos : ∀ q, 0 < exp q

/-- JS `Math.sqrt`: NaN on a negative argument, NaN-propagating. -/
def RealOps.sqrtJ (ops : RealOps) : JsNum → JsNum
  | .nan => .nan
  | .num q => if q < 0 then .nan else .num (ops.sqrt q)

/-- A concrete interpretation of the `Math` primitives, used only to evaluate
the embedding on concrete inputs in witness and counterexample theorems.
All claim theorems are parametric in the interpretation. -/
def testOps : RealOps where
  sqrt q := if 0 < q then 1 else 0
  exp _ := 1
  log _ := 0
  sqrt_nonneg q := by dsimp only; split <;> norm_num
  exp_pos _ := by norm_num

/-- Whitespace trimming of a cell or header (JS `String.prototype.trim`),
defined over the character list so that it evaluates inside the kernel. -/
def jsTrim (s : String) : String :=
  ⟨((s.data.dropWhile Char.isWhitespace).reverse.dropWhile Char.isWhitespace).reverse⟩

/-- A simple numeric-cell parser standing in for JS `parseFloat` in concrete
witness inputs: nonempty strings of decimal digits parse to the corresponding
natural number, everything else fails (NaN).  The claim theorems are
parametric in the parser, so nothing depends on this choice. -/
def natParse (s : String) : Option ℚ :=
  match s.data with
  | [] => none
  | cs => (cs.foldl (fun acc? c =>
      acc?.bind (fun acc => if c.isDigit then some (acc * 10 + (c.toNat - 48)) else none))
      (some 0)).map (fun n => (n : ℚ))

/-- Index of the first occurrence of a string in a list (JS `Array.indexOf`),
`none` when absent (JS `-1`). -/
def idxOf? : List String → String → Option Nat
  | [], _ => none
  | a :: rest, s => if a = s then some 0 else (idxOf? rest s).map (· + 1)

/-- JS object property write: overwrites in place when the key is present
(keeping its original insertion position), appends otherwise. -/
def objSet {α : Type} : List (String × α) → String → α → List (String × α)
  | [], k, v => [(k, v)]
  | (k', v') :: rest, k, v =>
      if k' = k then (k, v) :: rest else (k', v') :: objSet rest k v

/-- JS object property read. -/
def objGet? {α : Type} : List (String × α) → String → Option α
  | [], _ => none
  | (k', v') :: rest, k => if k' = k then some v' else objGet? rest k

/-- Distinct elements of a list in first-occurrence order, relative to an
accumulator of already-seen elements (the behaviour of inserting into a JS
`Set` one element at a time). -/
def dedupFirstAux (seen : List String) : List String → List String
  | [] => []
  | a :: rest =>
      if a ∈ seen then dedupFirstAux seen rest
      else a :: dedupFirstAux (a :: seen) rest

/-- Distinct elements of a list in first-occurrence order (JS `Set` iteration
order). -/
def dedupFirst (l : List String) : List String := dedupFirstAux [] l

theorem mem_dedupFirstAux {x : String} :
    ∀ (seen l : List String), x ∈ dedupFirstAux seen l ↔ x ∈ l ∧ x ∉ seen := by
  intro seen l
  induction l generalizing seen with
  | nil => simp [dedupFirstAux]
  | cons a rest ih =>
    by_cases ha : a ∈ seen
    · simp only [dedupFirstAux, if_pos ha, ih, List.mem_cons]
      constructor
      · rintro ⟨hm, hs⟩; exact ⟨Or.inr hm, hs⟩
      · rintro ⟨hm | hm, hs⟩
        · exact absurd (hm ▸ ha) hs
        · exact ⟨hm, hs⟩
    · simp only [dedupFirstAux, if_neg ha, List.mem_cons, ih, not_or]
      by_cases hxa : x = a
      · subst hxa; simp [ha]
      · simp [hxa]

theorem mem_dedupFirst {x : String} {l : List String} :
    x ∈ dedupFirst l ↔ x ∈ l := by
  simp [dedupFirst, mem_dedupFirstAux]

theorem nodup_dedupFirstAux :
    ∀ (seen l : List String), (dedupFirstAux seen l).Nodup := by
  intro seen l
  induction l generalizing seen with
  | nil => simp [dedupFirstAux]
  | cons a rest ih =>
    by_cases ha : a ∈ seen
    · simp only [dedupFirstAux, if_pos ha]; exact ih seen
    · simp only [dedupFirstAux, if_neg ha, List.nodup_cons]
      refine ⟨fun hmem => ?_, ih _⟩
      exact ((mem_dedupFirstAux _ _).mp hmem).2 (List.mem_cons_self a seen)

theorem nodup_dedupFirst (l : List String) : (dedupFirst l).Nodup :=
  nodup_dedupFirstAux [] l

/-! ## Critical t-value lookup (`tCriticalTable`, `getCriticalTValue`) -/

/-- The fixed lookup table of two-tailed 95 percent critical t-values at
canonical degrees of freedom (`tCriticalTable` in the source).  JS object
numeric keys iterate in ascending order, which is also the written order. -/
def tCriticalTable : List (ℚ × ℚ) :=
  [(1, 12.706), (2, 4.303), (3, 3.182), (4, 2.776), (5, 2.571),
   (6, 2.447), (7, 2.365), (8, 2.306), (9, 2.262), (10, 2.228),
   (12, 2.179), (15, 2.131), (20, 2.086), (25, 2.060), (30, 2.042),
   (40, 2.021), (60, 2.000), (100, 1.984), (1000, 1.962)]

/-- Table lookup `tCriticalTable[df]` (all stored values are nonzero, so the
JS truthiness test agrees with presence of the key). -/
def tTableLookup? (df : ℚ) : Option ℚ :=
  (tCriticalTable.find? (fun p => decide (p.1 = df))).map Prod.snd

/-- The bracket-searching loop of `getCriticalTValue`: the first adjacent pair
`(lower, upper)` of table keys with `lower ≤ df ≤ upper`, or the supplied
default when no pair matches. -/
def findBracket (df : ℚ) : List ℚ → (ℚ × ℚ) → (ℚ × ℚ)
  | a :: b :: rest, dflt =>
      if a ≤ df ∧ df ≤ b then (a, b) else findBracket df (b :: rest) dflt
  | _, dflt => dflt

/-- Critical t-value for a 95 percent confidence interval (`getCriticalTValue`
in the source): exact table hit, clamping outside the table range, or linear
interpolation between the two surrounding table entries.  The `getD 0`
defaults are unreachable: the keys fed to the lookups are table keys. -/
def getCriticalTValue (df : ℚ) : ℚ :=
  match tTableLookup? df with
  | some v => v
  | none =>
    let dfValues := tCriticalTable.map Prod.fst
    let d0 := dfValues.headD 0
    let dlast := dfValues.getLastD 0
    if df < d0 then (tTableLookup? d0).getD 0
    else if dlast < df then (tTableLookup? dlast).getD 0
    else
      let lu := findBracket df dfValues (d0, d0)
      if lu.1 = lu.2 then (tTableLookup? lu.1).getD 0
      else
        let ratio := (df - lu.1) / (lu.2 - lu.1)
        (tTableLookup? lu.1).getD 0 +
          ratio * ((tTableLookup? lu.2).getD 0 - (tTableLookup? lu.1).getD 0)

/-! ## Student-t p-value (`regularizedIncompleteBeta`, `tDistributionCDF`,
`calculatePValue`) -/

/-- The convergence tolerance of the continued fraction (`epsilon = 1e-12`). -/
def lentzEps : ℚ := 1 / 10 ^ 12

/-- The iteration-`i` numerator of the continued fraction in
`regularizedIncompleteBeta` (`m = i / 2` is JS float division, i.e. exact). -/
def lentzNumer (a b x : ℚ) (i : ℕ) : ℚ :=
  let m : ℚ := (i : ℚ) / 2
  if i = 1 then 1
  else if i % 2 = 0 then (m * (b - m) * x) / ((a + 2 * m - 1) * (a + 2 * m))
  else (-(a + m) * (a + b + m) * x) / ((a + 2 * m) * (a + 2 * m + 1))

/-- One iteration of the loop body of `regularizedIncompleteBeta` (modified
Lentz algorithm) at index `i ≥ 1`, acting on the state `(f, c, d)`. -/
def lentzStep (a b x : ℚ) (i : ℕ) (s : ℚ × ℚ × ℚ) : ℚ × ℚ × ℚ :=
  let f := s.1
  let c := s.2.1
  let d := s.2.2
  let numerator : ℚ := lentzNumer a b x i
  let d1 := 1 + numerator * d
  let d2 := if |d1| < lentzEps then lentzEps else d1
  let c1 := 1 + numerator / c
  let c2 := if |c1| < lentzEps then lentzEps else c1
  let d3 := 1 / d2
  (f * (d3 * c2), c2, d3)

/-- The iteration loop of `regularizedIncompleteBeta`, with the early break on
`|d * c - 1| < epsilon`.  `fuel` counts the remaining iterations (100 at the
top call), `i` is the current loop index. -/
def lentzLoop (a b x : ℚ) : ℕ → ℕ → ℚ × ℚ × ℚ → ℚ
  | 0, _, s => s.1
  | fuel + 1, i, s =>
    let s' := lentzStep a b x i s
    if |s'.2.2 * s'.2.1 - 1| < lentzEps then s'.1
    else lentzLoop a b x fuel (i + 1) s'

/-- Regularized incomplete beta function approximation of the source
(`regularizedIncompleteBeta`): continued fraction with a `front` factor built
from `Math.log`/`Math.exp`.  The division by `a` is only reached with `a > 0`
from `tDistributionCDF`. -/
def regularizedIncompleteBeta (ops : RealOps) (a b x : ℚ) : ℚ :=
  if x < 0 ∨ 1 < x then (if x < 0 then 0 else 1)
  else if x = 0 then 0
  else if x = 1 then 1
  else
    let logBeta := (a + b - 1) * ops.log x + (a - 1) * ops.log (1 - x) +
      (b - 1) * ops.log (x * (1 - x))
    let front := ops.exp logBeta
    let f := lentzLoop a b x 100 1 (1, 1, 0)
    front * f / a

/-- Student-t cumulative distribution function of the source
(`tDistributionCDF`). -/
def tDistributionCDF (ops : RealOps) (t df : ℚ) : ℚ :=
  if df ≤ 0 then 1 / 2
  else
    let abst := |t|
    let x := df / (df + abst * abst)
    let betaValue := regularizedIncompleteBeta ops (df / 2) (1 / 2) x
    if 0 ≤ t then 1 / 2 + 1 / 2 * (1 - betaValue) else 1 / 2 * betaValue

/-- Two-tailed p-value from a t-statistic and degrees of freedom
(`calculatePValue`).  The t-statistic is a `JsNum` because the caller can pass
NaN (the code tests `isNaN(tStat)`). -/
def calculatePValue (ops : RealOps) (tStat : JsNum) (df : ℚ) : ℚ :=
  if df ≤ 0 ∨ tStat = JsNum.nan then 1
  else
    match tStat with
    | .nan => 1
    | .num t =>
      let cdf := tDistributionCDF ops t df
      let oneTailed := if 0 ≤ t then 1 - cdf else cdf
      min (2 * oneTailed) 1

/-! ### Positivity of the continued fraction

The certificate sequence `lentzCert a k` dominates the Lentz state: before
iteration `i` the stored `d` lies in `(0, 1/(1 - x * lentzCert a (i-1))]` and
the stored `c` is at least `1 - x * lentzCert a (i-1)`.  The key inequality is
`v i ≤ lentzCert a i * (1 - lentzCert a (i-1))` where `-x * v i` is the
iteration-`i` numerator; it holds with equality at odd `i`. -/

/-- Certificate sequence for the positivity of the Lentz iteration applied to
the incomplete-beta continued fraction with second parameter `b = 1/2`. -/
def lentzCert (a : ℚ) (k : ℕ) : ℚ :=
  if k % 2 = 1 then (2 * a + k) / (2 * a + 2 * k)
  else ((k : ℚ) + 2) / (2 * a + 2 * k + 4)

theorem lentzCert_nonneg {a : ℚ} (ha : 0 < a) (k : ℕ) : 0 ≤ lentzCert a k := by
  unfold lentzCert
  have hk : (0 : ℚ) ≤ (k : ℚ) := Nat.cast_nonneg k
  split
  · positivity
  · positivity

theorem lentzCert_lt_one {a : ℚ} (ha : 0 < a) {k : ℕ} (hk : 1 ≤ k) :
    lentzCert a k < 1 := by
  unfold lentzCert
  have hkq : (1 : ℚ) ≤ (k : ℚ) := by exact_mod_cast hk
  split
  · rw [div_lt_one (by linarith)]
    linarith
  · rw [div_lt_one (by linarith)]
    linarith

/-- The key certificate inequality: for `i ≥ 2` the numerator is `-x * v` with
`0 ≤ v ≤ lentzCert a i * (1 - lentzCert a (i-1))` (equality at odd `i`). -/
theorem lentzNumer_bound {a x : ℚ} (ha : 0 < a) (hx0 : 0 ≤ x) (hx1 : x ≤ 1)
    {i : ℕ} (hi : 2 ≤ i) :
    0 ≤ -lentzNumer a (1/2) x i ∧
      -lentzNumer a (1/2) x i ≤ x * (lentzCert a i * (1 - lentzCert a (i - 1))) := by
  rcases Nat.even_or_odd i with ⟨k, hk⟩ | ⟨k, hk⟩
  · -- even case: i = 2k, k ≥ 1
    subst hk
    have hk1 : 1 ≤ k := by omega
    have hkq : (1 : ℚ) ≤ (k : ℚ) := by exact_mod_cast hk1
    have hcast : ((k + k : ℕ) : ℚ) = 2 * (k : ℚ) := by push_cast; ring
    have hnum : lentzNumer a (1/2) x (k + k) =
        ((k : ℚ) * (1/2 - (k : ℚ)) * x) / ((a + 2 * (k : ℚ) - 1) * (a + 2 * (k : ℚ))) := by
      have h1 : ¬ (k + k = 1) := by omega
      have h2 : (k + k) % 2 = 0 := by omega
      simp only [lentzNumer, if_neg h1, if_pos h2, hcast]
      norm_num
    have hd1 : (0 : ℚ) < a + 2 * (k : ℚ) - 1 := by linarith
    have hd2 : (0 : ℚ) < a + 2 * (k : ℚ) := by linarith
    have hd3 : (0 : ℚ) < a + 2 * (k : ℚ) + 2 := by linarith
    have hcertEven : lentzCert a (k + k) = (2 * (k : ℚ) + 2) / (2 * a + 4 * (k : ℚ) + 4) := by
      have h2 : ¬ ((k + k) % 2 = 1) := by omega
      simp only [lentzCert, if_neg h2, hcast]
      ring_nf
    have hcastp : ((k + k - 1 : ℕ) : ℚ) = 2 * (k : ℚ) - 1 := by
      have : k + k - 1 + 1 = k + k := by omega
      have h := congrArg (fun n : ℕ => ((n : ℚ))) this
      push_cast at h ⊢
      linarith
    have hcertOdd : lentzCert a (k + k - 1) = (2 * a + 2 * (k : ℚ) - 1) / (2 * a + 4 * (k : ℚ) - 2) := by
      have h2 : (k + k - 1) % 2 = 1 := by omega
      simp only [lentzCert, if_pos h2, hcastp]
      ring_nf
    have hneg : -lentzNumer a (1/2) x (k + k) =
        x * ((2 * (k : ℚ) - 1) / (2 * (a + 2 * (k : ℚ) - 1))) * ((k : ℚ) / (a + 2 * (k : ℚ))) := by
      rw [hnum]
      field_simp
      ring
    constructor
    · rw [hneg]
      have h1 : (0 : ℚ) ≤ (2 * (k : ℚ) - 1) / (2 * (a + 2 * (k : ℚ) - 1)) :=
        div_nonneg (by linarith) (by linarith)
      have h2 : (0 : ℚ) ≤ (k : ℚ) / (a + 2 * (k : ℚ)) := div_nonneg (by linarith) (by linarith)
      exact mul_nonneg (mul_nonneg hx0 h1) h2
    · have hrhs : x * (lentzCert a (k + k) * (1 - lentzCert a (k + k - 1))) =
          x * ((2 * (k : ℚ) - 1) / (2 * (a + 2 * (k : ℚ) - 1))) *
            (((k : ℚ) + 1) / (a + 2 * (k : ℚ) + 2)) := by
        rw [hcertEven, hcertOdd]
        have e1 : (2 : ℚ) * a + 4 * (k : ℚ) + 4 ≠ 0 := by linarith
        have e2 : (2 : ℚ) * a + 4 * (k : ℚ) - 2 ≠ 0 := by linarith
        field_simp
        ring
      rw [hneg, hrhs]
      have hcore : (k : ℚ) / (a + 2 * (k : ℚ)) ≤ ((k : ℚ) + 1) / (a + 2 * (k : ℚ) + 2) := by
        rw [div_le_div_iff hd2 hd3]
        nlinarith
      have hfac : (0 : ℚ) ≤ x * ((2 * (k : ℚ) - 1) / (2 * (a + 2 * (k : ℚ) - 1))) :=
        mul_nonneg hx0 (div_nonneg (by linarith) (by linarith))
      exact mul_le_mul_of_nonneg_left hcore hfac
  · -- odd case: i = 2k + 1, k ≥ 1
    subst hk
    have hk1 : 1 ≤ k := by omega
    have hkq : (1 : ℚ) ≤ (k : ℚ) := by exact_mod_cast hk1
    have hcast : ((2 * k + 1 : ℕ) : ℚ) = 2 * (k : ℚ) + 1 := by push_cast; ring
    have hd1 : (0 : ℚ) < a + 2 * (k : ℚ) + 1 := by linarith
    have hd2 : (0 : ℚ) < a + 2 * (k : ℚ) + 2 := by linarith
    have hnum : lentzNumer a (1/2) x (2 * k + 1) =
        (-(a + ((k : ℚ) + 1/2)) * (a + ((k : ℚ) + 1)) * x) /
          ((a + 2 * (k : ℚ) + 1) * (a + 2 * (k : ℚ) + 2)) := by
      have h1 : ¬ (2 * k + 1 = 1) := by omega
      have h2 : ¬ ((2 * k + 1) % 2 = 0) := by omega
      simp only [lentzNumer, if_neg h1, if_neg h2, hcast]
      ring
    have hcertOdd : lentzCert a (2 * k + 1) =
        (2 * a + (2 * (k : ℚ) + 1)) / (2 * a + 2 * (2 * (k : ℚ) + 1)) := by
      have h2 : (2 * k + 1) % 2 = 1 := by omega
      simp only [lentzCert, if_pos h2, hcast]
    have hcastp : ((2 * k + 1 - 1 : ℕ) : ℚ) = 2 * (k : ℚ) := by
      have : 2 * k + 1 - 1 = 2 * k := by omega
      rw [this]; push_cast; ring
    have hcertEven : lentzCert a (2 * k + 1 - 1) =
        (2 * (k : ℚ) + 2) / (2 * a + 2 * (2 * (k : ℚ)) + 4) := by
      have h2 : ¬ ((2 * k + 1 - 1) % 2 = 1) := by omega
      simp only [lentzCert, if_neg h2, hcastp]
    have hkey : -lentzNumer a (1/2) x (2 * k + 1) =
        x * (lentzCert a (2 * k + 1) * (1 - lentzCert a (2 * k + 1 - 1))) := by
      rw [hnum, hcertOdd, hcertEven]
      have e1 : (2 : ℚ) * a + 2 * (2 * (k : ℚ) + 1) ≠ 0 := by linarith
      have e2 : (2 : ℚ) * a + 2 * (2 * (k : ℚ)) + 4 ≠ 0 := by linarith
      field_simp
      ring
    constructor
    · rw [hkey]
      have hc1 : 0 ≤ lentzCert a (2 * k + 1) := lentzCert_nonneg ha _
      have hc2 : lentzCert a (2 * k + 1 - 1) < 1 := lentzCert_lt_one ha (by omega)
      exact mul_nonneg hx0 (mul_nonneg hc1 (by linarith))
    · rw [hkey]


/-- The clamping of a Lentz intermediate value away from zero
(`if (Math.abs(v) < epsilon) v = epsilon`). -/
def lentzClamp (q : ℚ) : ℚ := if |q| < lentzEps then lentzEps else q

theorem le_lentzClamp {t q : ℚ} (h : t ≤ q) : t ≤ lentzClamp q := by
  unfold lentzClamp
  split
  · rename_i hcl
    have := le_abs_self q
    linarith
  · exact h

/-- Positivity invariant of the Lentz loop: starting at any index `i ≥ 2` from a
state whose `d` lies in `(0, 1/(1 - x * lentzCert a (i-1))]` (stated
multiplicatively) and whose `c` is at least `1 - x * lentzCert a (i-1)`, the
loop returns a positive value, clamps included. -/
theorem lentzLoop_pos {a x : ℚ} (ha : 0 < a) (hx0 : 0 < x) (hx1 : x < 1) :
    ∀ (fuel i : ℕ) (s : ℚ × ℚ × ℚ), 2 ≤ i →
      0 < s.1 →
      1 - x * lentzCert a (i - 1) ≤ s.2.1 →
      0 < s.2.2 →
      s.2.2 * (1 - x * lentzCert a (i - 1)) ≤ 1 →
      0 < lentzLoop a (1/2) x fuel i s := by
  intro fuel
  induction fuel with
  | zero => intro i s _ hf _ _ _; exact hf
  | succ n ih =>
    intro i s hi hf hc hd0 hd1
    set δp := lentzCert a (i - 1) with hδp
    set δ := lentzCert a i with hδ
    have hδp0 : 0 ≤ δp := lentzCert_nonneg ha _
    have hδp1 : δp < 1 := lentzCert_lt_one ha (by omega)
    have hδ0 : 0 ≤ δ := lentzCert_nonneg ha _
    have hδ1 : δ < 1 := lentzCert_lt_one ha (by omega)
    have hxδp : x * δp < 1 := by nlinarith
    have hxδ : x * δ < 1 := by nlinarith
    have h1p : 0 < 1 - x * δp := by linarith
    have h1 : 0 < 1 - x * δ := by linarith
    obtain ⟨hu0, hu1⟩ := lentzNumer_bound ha (le_of_lt hx0) (le_of_lt hx1) hi
    set u := -lentzNumer a (1/2) x i with hu
    have hnum : lentzNumer a (1/2) x i = -u := by rw [hu]; ring
    -- the new d before clamping
    have hd1' : 1 - x * δ ≤ 1 + lentzNumer a (1/2) x i * s.2.2 := by
      rw [hnum]
      have step1 : u * s.2.2 ≤ x * (δ * (1 - δp)) * s.2.2 :=
        mul_le_mul_of_nonneg_right hu1 (le_of_lt hd0)
      have step2 : x * (δ * (1 - δp)) * s.2.2 ≤ x * (δ * (1 - x * δp)) * s.2.2 := by
        have hfac : x * (δ * (1 - δp)) ≤ x * (δ * (1 - x * δp)) := by
          have : (1 : ℚ) - δp ≤ 1 - x * δp := by nlinarith
          nlinarith
        exact mul_le_mul_of_nonneg_right hfac (le_of_lt hd0)
      have step3 : x * (δ * (1 - x * δp)) * s.2.2 ≤ x * δ := by
        have hxd : 0 ≤ x * δ := by positivity
        calc x * (δ * (1 - x * δp)) * s.2.2 = (x * δ) * (s.2.2 * (1 - x * δp)) := by ring
        _ ≤ (x * δ) * 1 := mul_le_mul_of_nonneg_left hd1 hxd
        _ = x * δ := by ring
      nlinarith
    -- the new c before clamping
    have hcpos : 0 < s.2.1 := lt_of_lt_of_le h1p hc
    have hc1' : 1 - x * δ ≤ 1 + lentzNumer a (1/2) x i / s.2.1 := by
      rw [hnum]
      have hukc : u ≤ x * δ * s.2.1 := by
        have ha1 : u ≤ x * (δ * (1 - δp)) := hu1
        have ha2 : x * (δ * (1 - δp)) ≤ x * (δ * (1 - x * δp)) := by
          have : (1 : ℚ) - δp ≤ 1 - x * δp := by nlinarith
          nlinarith
        have ha3 : x * (δ * (1 - x * δp)) ≤ x * δ * s.2.1 := by
          have hxd : 0 ≤ x * δ := by positivity
          calc x * (δ * (1 - x * δp)) = (x * δ) * (1 - x * δp) := by ring
          _ ≤ (x * δ) * s.2.1 := mul_le_mul_of_nonneg_left hc hxd
          _ = x * δ * s.2.1 := rfl
        linarith
      have hdiv : u / s.2.1 ≤ x * δ := by
        rw [div_le_iff₀ hcpos]
        exact hukc
      have hnegdiv : -u / s.2.1 = -(u / s.2.1) := by ring
      rw [hnegdiv]
      linarith
    simp only [lentzLoop]
    set s' := lentzStep a (1/2) x i s with hs'def
    have h2 : s'.2.1 = lentzClamp (1 + lentzNumer a (1/2) x i / s.2.1) := rfl
    have h3 : s'.2.2 = 1 / lentzClamp (1 + lentzNumer a (1/2) x i * s.2.2) := rfl
    have h1e : s'.1 = s.1 * (s'.2.2 * s'.2.1) := rfl
    have hd2lb : 1 - x * δ ≤ lentzClamp (1 + lentzNumer a (1/2) x i * s.2.2) :=
      le_lentzClamp hd1'
    have hd2pos : 0 < lentzClamp (1 + lentzNumer a (1/2) x i * s.2.2) :=
      lt_of_lt_of_le h1 hd2lb
    have hc2lb : 1 - x * δ ≤ lentzClamp (1 + lentzNumer a (1/2) x i / s.2.1) :=
      le_lentzClamp hc1'
    have hs'c : 0 < s'.2.1 := by rw [h2]; exact lt_of_lt_of_le h1 hc2lb
    have hs'd : 0 < s'.2.2 := by rw [h3]; positivity
    have hs'f : 0 < s'.1 := by rw [h1e]; exact mul_pos hf (mul_pos hs'd hs'c)
    split
    · exact hs'f
    · refine ih (i + 1) s' (by omega) hs'f ?_ hs'd ?_
      · have he : i + 1 - 1 = i := by omega
        rw [he, h2]
        exact hc2lb
      · have he : i + 1 - 1 = i := by omega
        rw [he, h3]
        rw [one_div_mul_eq_div, div_le_one hd2pos]
        exact hd2lb

/-- Unfolding equation of `lentzLoop` for one remaining-iteration step. -/
theorem lentzLoop_succ (a b x : ℚ) (n i : ℕ) (s : ℚ × ℚ × ℚ) :
    lentzLoop a b x (n + 1) i s =
      (if |(lentzStep a b x i s).2.2 * (lentzStep a b x i s).2.1 - 1| < lentzEps
       then (lentzStep a b x i s).1
       else lentzLoop a b x n (i + 1) (lentzStep a b x i s)) := rfl

/-- The state after the first iteration is `(2, 2, 1)`. -/
theorem lentzStep_one (a x : ℚ) : lentzStep a (1/2) x 1 (1, 1, 0) = (2, 2, 1) := by
  simp only [lentzStep, lentzNumer, if_pos rfl]
  norm_num [lentzEps]

/-- The break condition does not fire after the first iteration. -/
theorem lentzBreak_one :
    ¬ (|((2:ℚ), (2:ℚ), (1:ℚ)).2.2 * ((2:ℚ), (2:ℚ), (1:ℚ)).2.1 - 1| < lentzEps) := by
  norm_num [lentzEps]

/-- The first iteration (numerator 1, initial state `(1, 1, 0)`) computes the
state `(2, 2, 1)` and does not hit the break condition. -/
theorem lentzLoop_first (a x : ℚ) :
    lentzLoop a (1/2) x 100 1 (1, 1, 0) = lentzLoop a (1/2) x 99 2 (2, 2, 1) := by
  have h100 : (100 : ℕ) = 99 + 1 := rfl
  rw [h100, lentzLoop_succ, lentzStep_one, if_neg lentzBreak_one]

/-- The continued-fraction accumulator of `regularizedIncompleteBeta` is
positive throughout the domain `0 < x < 1`, `a > 0`, `b = 1/2`. -/
theorem lentzLoop_result_pos {a x : ℚ} (ha : 0 < a) (hx0 : 0 < x) (hx1 : x < 1) :
    0 < lentzLoop a (1/2) x 100 1 (1, 1, 0) := by
  rw [lentzLoop_first]
  have hδ1 : (0 : ℚ) ≤ x * lentzCert a (2 - 1) :=
    mul_nonneg (le_of_lt hx0) (lentzCert_nonneg ha _)
  exact lentzLoop_pos ha hx0 hx1 99 2 (2, 2, 1) (le_refl 2)
    (by norm_num) (by simp only; linarith) (by norm_num)
    (by simp only; linarith)

/-- For `a > 0` and `b = 1/2` the regularized-incomplete-beta approximation is
nonnegative for every argument `x` (for every interpretation of the `Math`
primitives). -/
theorem regularizedIncompleteBeta_nonneg (ops : RealOps) {a : ℚ} (ha : 0 < a)
    (x : ℚ) : 0 ≤ regularizedIncompleteBeta ops a (1/2) x := by
  unfold regularizedIncompleteBeta
  split
  · split <;> norm_num
  · rename_i hrange
    push_neg at hrange
    split
    · norm_num
    · rename_i hx0
      split
      · norm_num
      · rename_i hx1
        have hx0' : 0 < x := lt_of_le_of_ne (by linarith [hrange.1]) (Ne.symm hx0)
        have hx1' : x < 1 := lt_of_le_of_ne hrange.2 hx1
        have hf := lentzLoop_result_pos ha hx0' hx1'
        have hfront := ops.exp_pos ((a + 1/2 - 1) * ops.log x +
          (a - 1) * ops.log (1 - x) + (1/2 - 1) * ops.log (x * (1 - x)))
        positivity

/-- C4: for every t-statistic and every degrees-of-freedom value,
`calculatePValue` returns a value in the closed interval `[0, 1]`, and it
returns exactly `1` whenever `df ≤ 0` or the t-statistic is NaN. -/
theorem calculatePValue_unit_interval (ops : RealOps) (t : JsNum) (df : ℚ) :
    0 ≤ calculatePValue ops t df ∧ calculatePValue ops t df ≤ 1 ∧
      ((df ≤ 0 ∨ t = JsNum.nan) → calculatePValue ops t df = 1) := by
  unfold calculatePValue
  split
  · norm_num
  · rename_i hguard
    push_neg at hguard
    obtain ⟨hdf, hnan⟩ := hguard
    cases t with
    | nan => exact absurd rfl hnan
    | num q =>
      dsimp only
      have hbeta : 0 ≤ regularizedIncompleteBeta ops (df / 2) (1/2)
          (df / (df + |q| * |q|)) :=
        regularizedIncompleteBeta_nonneg ops (by linarith) _
      have hcdf : tDistributionCDF ops q df =
          (if 0 ≤ q then 1/2 + 1/2 * (1 - regularizedIncompleteBeta ops (df / 2) (1/2)
              (df / (df + |q| * |q|)))
           else 1/2 * regularizedIncompleteBeta ops (df / 2) (1/2)
              (df / (df + |q| * |q|))) := by
        unfold tDistributionCDF
        rw [if_neg (not_le.mpr hdf)]
      rw [hcdf]
      refine ⟨?_, ?_, ?_⟩
      · by_cases hq : 0 ≤ q
        · rw [if_pos hq, if_pos hq]
          exact le_min (by linarith) (by norm_num)
        · rw [if_neg hq, if_neg hq]
          exact le_min (by linarith) (by norm_num)
      · exact min_le_right _ _
      · intro h
        rcases h with h | h
        · linarith
        · exact absurd h hnan

/-! ## Claim C6: behaviour of `getCriticalTValue` -/

/-- Value stored in the critical-t table at a given key. -/
def tTableVal (k : ℚ) : ℚ := (tTableLookup? k).getD 0

/-- The canonical degrees-of-freedom keys of the table, in ascending order. -/
def tCriticalKeys : List ℚ := tCriticalTable.map Prod.fst

theorem tTableLookup?_eq_none {df : ℚ} (h : ∀ p ∈ tCriticalTable, p.1 ≠ df) :
    tTableLookup? df = none := by
  unfold tTableLookup?
  have : tCriticalTable.find? (fun p => decide (p.1 = df)) = none := by
    rw [List.find?_eq_none]
    intro p hp
    simp only [decide_eq_true_eq]
    exact h p hp
  rw [this]
  rfl

theorem findBracket_cons_skip {df a b : ℚ} {rest : List ℚ} {dflt : ℚ × ℚ}
    (h : ¬(a ≤ df ∧ df ≤ b)) :
    findBracket df (a :: b :: rest) dflt = findBracket df (b :: rest) dflt := by
  simp [findBracket, h]

theorem findBracket_cons_hit {df a b : ℚ} {rest : List ℚ} {dflt : ℚ × ℚ}
    (h : a ≤ df ∧ df ≤ b) :
    findBracket df (a :: b :: rest) dflt = (a, b) := by
  simp [findBracket, h]

theorem getCriticalTValue_clamp_below {df : ℚ} (h : df < 1) :
    getCriticalTValue df = 12.706 := by
  have hnone : tTableLookup? df = none := by
    apply tTableLookup?_eq_none
    intro p hp
    fin_cases hp <;> (intro heq; simp only at heq; linarith)
  unfold getCriticalTValue
  rw [hnone]
  dsimp only
  rw [show ((tCriticalTable.map Prod.fst).headD 0 : ℚ) = 1 from rfl]
  rw [if_pos h]
  rfl

theorem getCriticalTValue_clamp_above {df : ℚ} (h : 1000 < df) :
    getCriticalTValue df = 1.962 := by
  have hnone : tTableLookup? df = none := by
    apply tTableLookup?_eq_none
    intro p hp
    fin_cases hp <;> (intro heq; simp only at heq; linarith)
  unfold getCriticalTValue
  rw [hnone]
  dsimp only
  rw [show ((tCriticalTable.map Prod.fst).headD 0 : ℚ) = 1 from rfl]
  rw [show ((tCriticalTable.map Prod.fst).getLastD 0 : ℚ) = 1000 from rfl]
  rw [if_neg (by linarith), if_pos h]
  rfl

theorem tCriticalKeys_separated :
    ∀ pq ∈ tCriticalKeys.zip tCriticalKeys.tail,
      (1 ≤ pq.1 ∧ pq.2 ≤ 1000) ∧ ∀ k ∈ tCriticalKeys, k ≤ pq.1 ∨ pq.2 ≤ k := by
  decide

set_option maxHeartbeats 1000000 in
theorem getCriticalTValue_interp {df lo hi : ℚ}
    (hmem : (lo, hi) ∈ tCriticalKeys.zip tCriticalKeys.tail)
    (hlo : lo < df) (hhi : df < hi) :
    getCriticalTValue df =
      tTableVal lo + (df - lo) / (hi - lo) * (tTableVal hi - tTableVal lo) := by
  obtain ⟨⟨hlo1, hhi1000⟩, hsep⟩ := tCriticalKeys_separated (lo, hi) hmem
  have hnone : tTableLookup? df = none := by
    apply tTableLookup?_eq_none
    intro p hp
    have hk : p.1 ∈ tCriticalKeys := List.mem_map_of_mem Prod.fst hp
    intro heq
    rcases hsep p.1 hk with h | h <;> simp only at h <;> linarith
  unfold getCriticalTValue
  rw [hnone]
  dsimp only
  rw [show ((tCriticalTable.map Prod.fst).headD 0 : ℚ) = 1 from rfl]
  rw [show ((tCriticalTable.map Prod.fst).getLastD 0 : ℚ) = 1000 from rfl]
  simp only at hlo1 hhi1000
  rw [if_neg (by linarith), if_neg (by linarith)]
  rw [show (tCriticalTable.map Prod.fst : List ℚ) =
    [1, 2, 3, 4, 5, 6, 7, 8, 9, 10, 12, 15, 20, 25, 30,
     40, 60, 100, 1000] from rfl]
  fin_cases hmem <;>
  · simp only at hlo hhi
    repeat rw [findBracket_cons_skip (by rintro ⟨h1, h2⟩; linarith)]
    rw [findBracket_cons_hit ⟨le_of_lt hlo, le_of_lt hhi⟩]
    rw [if_neg (by norm_num)]
    norm_num [tTableVal, tTableLookup?, tCriticalTable, List.find?]

theorem getCriticalTValue_exact :
    ∀ p ∈ tCriticalTable, getCriticalTValue p.1 = p.2 := by
  intro p hp
  fin_cases hp <;>
    simp [getCriticalTValue, tTableLookup?, tCriticalTable, List.find?]

/-- C6: `getCriticalTValue` returns the table entry exactly at canonical keys,
clamps to the extreme entries outside the table range, and linearly
interpolates between the two surrounding entries strictly inside the range at
non-key arguments. -/
theorem getCriticalTValue_behaviour :
    (∀ p ∈ tCriticalTable, getCriticalTValue p.1 = p.2) ∧
    (∀ df : ℚ, df < 1 → getCriticalTValue df = 12.706) ∧
    (∀ df : ℚ, 1000 < df → getCriticalTValue df = 1.962) ∧
    (∀ df lo hi : ℚ, (lo, hi) ∈ tCriticalKeys.zip tCriticalKeys.tail →
      lo < df → df < hi →
      getCriticalTValue df =
        tTableVal lo + (df - lo) / (hi - lo) * (tTableVal hi - tTableVal lo)) :=
  ⟨getCriticalTValue_exact,
   fun _ h => getCriticalTValue_clamp_below h,
   fun _ h => getCriticalTValue_clamp_above h,
   fun _ _ _ hmem hlo hhi => getCriticalTValue_interp hmem hlo hhi⟩

/-- Witness for C6 at concrete inputs: the key 12 hits the table, 0.5 clamps
low, 2000 clamps high, and 11 interpolates between the entries at 10 and 12. -/
theorem getCriticalTValue_behaviour_witness :
    getCriticalTValue 12 = 2.179 ∧ getCriticalTValue 0.5 = 12.706 ∧
      getCriticalTValue 2000 = 1.962 ∧
      getCriticalTValue 11 = tTableVal 10 + (11 - 10) / (12 - 10) * (tTableVal 12 - tTableVal 10) :=
  ⟨getCriticalTValue_behaviour.1 (12, 2.179) (by norm_num [tCriticalTable]),
   getCriticalTValue_behaviour.2.1 0.5 (by norm_num),
   getCriticalTValue_behaviour.2.2.1 2000 (by norm_num),
   getCriticalTValue_behaviour.2.2.2 11 10 12 (by norm_num [tCriticalKeys, tCriticalTable])
     (by norm_num) (by norm_num)⟩

/-! ## Linear solver (`gaussianElimination`) and matrix inverse
(`invertMatrix`) -/

/-- Matrix as a list of row lists. -/
abbrev Mat := List (List ℚ)

/-- In-bounds entry access `A[i][j]`.  The embedded algorithms only read
entries that exist on the inputs the code builds, so the default is never the
value of a reachable read. -/
def getEntry (A : Mat) (i j : ℕ) : ℚ := (A.getD i []).getD j 0

/-- The near-zero pivot threshold `1e-10` of back substitution and
Gauss-Jordan elimination. -/
def smallPivot : ℚ := 1 / 10 ^ 10

/-- Pivot selection (`maxRow` loop): the earliest row index in `[i+1, n)`
whose column-`i` entry strictly exceeds the current best in absolute value,
starting from `i`. -/
def findPivotRow (A : Mat) (i n : ℕ) : ℕ :=
  (List.range' (i + 1) (n - (i + 1))).foldl
    (fun maxRow k => if |getEntry A maxRow i| < |getEntry A k i| then k else maxRow) i

/-- Swap two elements of a list (the JS destructuring row swap). -/
def swapList {α : Type} (l : List α) (i j : ℕ) : List α :=
  match l.get? i, l.get? j with
  | some a, some b => (l.set i b).set j a
  | _, _ => l

/-- One outer iteration of the forward-elimination phase of
`gaussianElimination`: pivot search, row swap, and elimination of the rows
below (skipped for a zero pivot, the `continue`). -/
def forwardStep (n : ℕ) (Ab : Mat × List ℚ) (i : ℕ) : Mat × List ℚ :=
  let maxRow := findPivotRow Ab.1 i n
  let A0 := swapList Ab.1 i maxRow
  let b0 := swapList Ab.2 i maxRow
  (List.range' (i + 1) (n - (i + 1))).foldl
    (fun Ab2 k =>
      if getEntry Ab2.1 i i = 0 then Ab2
      else
        let factor := getEntry Ab2.1 k i / getEntry Ab2.1 i i
        let newRow := ((Ab2.1.getD k []).enum).map
          (fun p => if i ≤ p.1 ∧ p.1 < n then p.2 - factor * getEntry Ab2.1 i p.1 else p.2)
        (Ab2.1.set k newRow, Ab2.2.set k (Ab2.2.getD k 0 - factor * Ab2.2.getD i 0)))
    (A0, b0)

/-- Forward-elimination phase of `gaussianElimination`. -/
def forwardElim (A : Mat) (b : List ℚ) : Mat × List ℚ :=
  (List.range A.length).foldl (forwardStep A.length) (A, b)

/-- One back-substitution value `x[i]`, given the already-computed tail
`xs = [x(i+1), …, x(n-1)]`: `0` for a near-zero pivot (singular-matrix case),
otherwise `(b[i] - Σ A[i][j]·x[j]) / A[i][i]`. -/
def backSubStep (A : Mat) (b : List ℚ) (i : ℕ) (xs : List ℚ) : ℚ :=
  if |getEntry A i i| < smallPivot then 0
  else
    (xs.enum.foldl (fun acc p => acc - getEntry A i (i + 1 + p.1) * p.2) (b.getD i 0)) /
      getEntry A i i

/-- Back-substitution phase, building `[x 0, …, x (n-1)]` bottom-up. -/
def backSubAux (A : Mat) (b : List ℚ) : ℕ → List ℚ → List ℚ
  | 0, xs => xs
  | i + 1, xs => backSubAux A b i (backSubStep A b i xs :: xs)

/-- Gaussian elimination with partial pivoting (`gaussianElimination`). -/
def gaussianElimination (A : Mat) (b : List ℚ) : List ℚ :=
  let Ab := forwardElim A b
  backSubAux Ab.1 Ab.2 A.length []

/-- Division that reports a zero divisor instead of silently producing a
value; used by the instrumented copy of the solver to prove that every
division the solver performs has a nonzero divisor. -/
def qdivChecked (p q : ℚ) : Option ℚ := if q = 0 then none else some (p / q)

/-- Instrumented copy of `forwardStep`: every division goes through
`qdivChecked`. -/
def forwardStepChecked (n : ℕ) (Ab : Mat × List ℚ) (i : ℕ) : Option (Mat × List ℚ) :=
  let maxRow := findPivotRow Ab.1 i n
  let A0 := swapList Ab.1 i maxRow
  let b0 := swapList Ab.2 i maxRow
  (List.range' (i + 1) (n - (i + 1))).foldlM
    (fun Ab2 k =>
      if getEntry Ab2.1 i i = 0 then some Ab2
      else
        (qdivChecked (getEntry Ab2.1 k i) (getEntry Ab2.1 i i)).map (fun factor =>
          let newRow := ((Ab2.1.getD k []).enum).map
            (fun p => if i ≤ p.1 ∧ p.1 < n then p.2 - factor * getEntry Ab2.1 i p.1 else p.2)
          (Ab2.1.set k newRow, Ab2.2.set k (Ab2.2.getD k 0 - factor * Ab2.2.getD i 0))))
    (A0, b0)

/-- Instrumented copy of `forwardElim`. -/
def forwardElimChecked (A : Mat) (b : List ℚ) : Option (Mat × List ℚ) :=
  (List.range A.length).foldlM (forwardStepChecked A.length) (A, b)

/-- Instrumented copy of `backSubStep`. -/
def backSubStepChecked (A : Mat) (b : List ℚ) (i : ℕ) (xs : List ℚ) : Option ℚ :=
  if |getEntry A i i| < smallPivot then some 0
  else
    qdivChecked (xs.enum.foldl (fun acc p => acc - getEntry A i (i + 1 + p.1) * p.2)
      (b.getD i 0)) (getEntry A i i)

/-- Instrumented copy of `backSubAux`. -/
def backSubAuxChecked (A : Mat) (b : List ℚ) : ℕ → List ℚ → Option (List ℚ)
  | 0, xs => some xs
  | i + 1, xs => (backSubStepChecked A b i xs).bind
      (fun v => backSubAuxChecked A b i (v :: xs))

/-- Instrumented copy of `gaussianElimination`: returns `none` exactly when
some executed division has a zero divisor. -/
def gaussianEliminationChecked (A : Mat) (b : List ℚ) : Option (List ℚ) :=
  (forwardElimChecked A b).bind (fun Ab => backSubAuxChecked Ab.1 Ab.2 A.length [])

/-! ## Claim C7: the solver is total and division-safe -/

theorem foldlM_eq_some {α β : Type} (f : β → α → Option β) (g : β → α → β)
    (h : ∀ acc a, f acc a = some (g acc a)) :
    ∀ (l : List α) (acc : β), l.foldlM f acc = some (l.foldl g acc) := by
  intro l
  induction l with
  | nil => intro acc; rfl
  | cons a rest ih =>
    intro acc
    simp only [List.foldlM, List.foldl, h acc a, Option.bind_eq_bind, Option.some_bind]
    exact ih (g acc a)

theorem forwardStepChecked_eq (n : ℕ) (Ab : Mat × List ℚ) (i : ℕ) :
    forwardStepChecked n Ab i = some (forwardStep n Ab i) := by
  unfold forwardStepChecked forwardStep
  apply foldlM_eq_some
  intro acc k
  by_cases hp : getEntry acc.1 i i = 0
  · simp [hp]
  · simp [hp, qdivChecked]

theorem forwardElimChecked_eq (A : Mat) (b : List ℚ) :
    forwardElimChecked A b = some (forwardElim A b) := by
  unfold forwardElimChecked forwardElim
  exact foldlM_eq_some _ _ (fun acc k => forwardStepChecked_eq A.length acc k) _ _

theorem backSubStepChecked_eq (A : Mat) (b : List ℚ) (i : ℕ) (xs : List ℚ) :
    backSubStepChecked A b i xs = some (backSubStep A b i xs) := by
  unfold backSubStepChecked backSubStep
  by_cases hp : |getEntry A i i| < smallPivot
  · simp [hp]
  · have hne : getEntry A i i ≠ 0 := by
      intro h0
      apply hp
      rw [h0]
      norm_num [smallPivot]
    simp [hp, qdivChecked, hne]

theorem backSubAuxChecked_eq (A : Mat) (b : List ℚ) :
    ∀ (n : ℕ) (xs : List ℚ),
      backSubAuxChecked A b n xs = some (backSubAux A b n xs) := by
  intro n
  induction n with
  | zero => intro xs; rfl
  | succ i ih =>
    intro xs
    unfold backSubAuxChecked backSubAux
    rw [backSubStepChecked_eq, Option.some_bind]
    exact ih _

theorem backSubAux_append (A : Mat) (b : List ℚ) :
    ∀ (n : ℕ) (xs : List ℚ),
      ∃ pre : List ℚ, pre.length = n ∧ backSubAux A b n xs = pre ++ xs := by
  intro n
  induction n with
  | zero => intro xs; exact ⟨[], rfl, rfl⟩
  | succ i ih =>
    intro xs
    obtain ⟨pre, hlen, heq⟩ := ih (backSubStep A b i xs :: xs)
    refine ⟨pre ++ [backSubStep A b i xs], by simp [hlen], ?_⟩
    unfold backSubAux
    rw [heq]
    simp

theorem backSubAux_length (A : Mat) (b : List ℚ) (n : ℕ) (xs : List ℚ) :
    (backSubAux A b n xs).length = n + xs.length := by
  obtain ⟨pre, hlen, heq⟩ := backSubAux_append A b n xs
  rw [heq, List.length_append, hlen]

theorem backSubAux_smallPivot (A : Mat) (b : List ℚ) :
    ∀ (n : ℕ) (xs : List ℚ) (i : ℕ), i < n →
      |getEntry A i i| < smallPivot → (backSubAux A b n xs).getD i 0 = 0 := by
  intro n
  induction n with
  | zero => intro xs i hi; omega
  | succ m ih =>
    intro xs i hi hpiv
    unfold backSubAux
    by_cases him : i < m
    · exact ih _ i him hpiv
    · have hieq : i = m := by omega
      subst hieq
      obtain ⟨pre, hlen, heq⟩ := backSubAux_append A b i (backSubStep A b i xs :: xs)
      rw [heq]
      have hv : backSubStep A b i xs = 0 := by
        unfold backSubStep
        rw [if_pos hpiv]
      rw [List.getD_eq_getElem?_getD, List.getElem?_append_right (by omega)]
      rw [hlen]
      simp [hv]

/-- C7: `gaussianElimination` always returns a solution vector of length `n`,
never performs a division whose divisor is zero (the instrumented copy, in
which every division checks its divisor, returns exactly the same result), and
assigns `0` to every unknown whose final pivot is below the `1e-10`
threshold in back substitution. -/
theorem gaussianElimination_spec (A : Mat) (b : List ℚ) :
    gaussianEliminationChecked A b = some (gaussianElimination A b) ∧
    (gaussianElimination A b).length = A.length ∧
    (∀ i < A.length, |getEntry (forwardElim A b).1 i i| < smallPivot →
      (gaussianElimination A b).getD i 0 = 0) := by
  refine ⟨?_, ?_, ?_⟩
  · unfold gaussianEliminationChecked gaussianElimination
    rw [forwardElimChecked_eq, Option.some_bind]
    exact backSubAuxChecked_eq _ _ _ _
  · unfold gaussianElimination
    rw [backSubAux_length]
    rfl
  · intro i hi hpiv
    unfold gaussianElimination
    exact backSubAux_smallPivot _ _ _ _ i hi hpiv

/-- Witness for C7 on the singular system `[[1,1],[1,1]] x = [1,2]`: the
instrumented solver agrees, the result has length 2, and the zero final pivot
in row 1 yields `x[1] = 0`. -/
theorem gaussianElimination_spec_witness :
    gaussianEliminationChecked [[1, 1], [1, 1]] [1, 2] =
      some (gaussianElimination [[1, 1], [1, 1]] [1, 2]) ∧
    (gaussianElimination [[1, 1], [1, 1]] [1, 2]).length = 2 ∧
    (gaussianElimination [[1, 1], [1, 1]] [1, 2]).getD 1 0 = 0 := by
  refine ⟨(gaussianElimination_spec [[1, 1], [1, 1]] [1, 2]).1, ?_, ?_⟩
  · exact (gaussianElimination_spec [[1, 1], [1, 1]] [1, 2]).2.1
  · refine (gaussianElimination_spec [[1, 1], [1, 1]] [1, 2]).2.2 1 (by norm_num) ?_
    have hfe : (forwardElim [[1, 1], [1, 1]] [(1:ℚ), 2]).1 = [[1, 1], [0, 0]] := by
      norm_num [forwardElim, forwardStep, findPivotRow, swapList, getEntry,
        List.range_succ, List.range', List.enum, List.enumFrom,
        List.getElem_cons_zero, List.getElem_cons_succ,
        show ([(1:ℚ), 1][1] : ℚ) = 1 from rfl]
    rw [hfe]
    norm_num [getEntry, smallPivot]

/-! ## Matrix inversion (`invertMatrix`) -/

/-- One outer iteration of the Gauss-Jordan elimination of `invertMatrix`:
pivot search, row swap, skip on a near-zero pivot (`continue`), otherwise
scale the pivot row and eliminate its column from all other rows. -/
def gjStep (n : ℕ) (aug : Mat) (i : ℕ) : Mat :=
  let maxRow := findPivotRow aug i n
  let aug2 := swapList aug i maxRow
  let pivot := getEntry aug2 i i
  if |pivot| < smallPivot then aug2
  else
    let scaled := aug2.set i (((aug2.getD i []).enum).map
      (fun p => if p.1 < 2 * n then p.2 / pivot else p.2))
    (List.range n).foldl (fun aug3 k =>
      if k ≠ i then
        let factor := getEntry aug3 k i
        aug3.set k (((aug3.getD k []).enum).map
          (fun p => if p.1 < 2 * n then p.2 - factor * getEntry aug3 i p.1 else p.2))
      else aug3) scaled

/-- Matrix inversion via Gauss-Jordan elimination with partial pivoting
(`invertMatrix`): augment with the identity, eliminate, extract the right
half. -/
def invertMatrix (A : Mat) : Mat :=
  let n := A.length
  let idm := (List.range n).map
    (fun i => (List.range n).map (fun j => if i = j then (1 : ℚ) else 0))
  let augmented := (A.zip idm).map (fun p => p.1 ++ p.2)
  ((List.range n).foldl (gjStep n) augmented).map (fun row => row.drop n)

/-! ## The regression pipeline (`performLinearRegression`) -/

/-- Failure modes of the regression pipeline.  Both the too-few-table-rows
check and the too-few-surviving-rows check throw generic data-insufficiency
errors and share the `insufficientData` constructor; the two column-lookup
throw sites are kept separate because the claims distinguish them. -/
inductive RegError where
  | insufficientData : RegError
  | yColumnNotFound (c : String) : RegError
  | xColumnNotFound (c : String) : RegError
deriving DecidableEq, Repr

/-- Per-coefficient inferential statistics (the entries of
`coefficientStats`).  `pValue` is rational-typed because `calculatePValue`
cannot produce NaN (its divisions and logarithms are all guarded, see
`calculatePValue_unit_interval`). -/
structure CoefStat where
  coefficient : JsNum
  standardError : JsNum
  tStat : JsNum
  pValue : ℚ
  ci95Lower : JsNum
  ci95Upper : JsNum
deriving DecidableEq, Repr

/-- The result record of `performLinearRegression` (`RegressionResult` in the
source).  `rSquared` and `adjustedRSquared` are rational-typed because the
code coerces NaN to 0 for exactly these two fields before resolving. -/
structure RegressionResult where
  slopes : List (String × JsNum)
  intercept : ℚ
  rSquared : ℚ
  adjustedRSquared : ℚ
  multipleR : JsNum
  standardError : JsNum
  predictions : List JsNum
  xColumns : List String
  coefficientStats : List (String × CoefStat)
deriving DecidableEq, Repr

/-- Trimmed header row (`rows[0].map(h => h.trim())`). -/
def headersOf (rows : List (List String)) : List String :=
  (rows.headD []).map jsTrim

/-- The X names that are actual CSV columns
(`xColumns.filter(col => headers.includes(col))`). -/
def actualCsvColumnsOf (headers xColumns : List String) : List String :=
  xColumns.filter (fun c => headers.contains c)

/-- The synthesized dummy names, skipping the first category of each source
column as the reference. -/
def dummyColumnNamesOf (dcm : List (String × List String)) : List String :=
  dcm.bind (fun p => (p.2.drop 1).map (fun cat => p.1 ++ "_" ++ cat))

/-- Header indices of the dummy source columns; sources absent from the
header are only warned about and get no entry. -/
def dummySourceIndicesOf (headers : List String) (dcm : List (String × List String)) :
    List (String × ℕ) :=
  dcm.filterMap (fun p => (idxOf? headers p.1).map (fun i => (p.1, i)))

/-- Index resolution of the actual CSV X columns, with the
`Column not found` throw (proved unreachable in claim C10). -/
def buildXIndices (headers : List String) : List String → Except RegError (List (String × ℕ))
  | [] => .ok []
  | c :: rest =>
    match idxOf? headers c with
    | none => .error (.xColumnNotFound c)
    | some i => (buildXIndices headers rest).map (fun l => (c, i) :: l)

/-- One data row of the filtering loop: trim the cells, parse Y (drop the row
on failure), parse every required X cell (drop the row on any failure), then
append the 0/1 indicator values recomputed from the row's cell, skipping
sources without a resolved header index and the first (reference) category of
each source. -/
def buildRow (pf : String → Option ℚ) (xIndices : List (String × ℕ))
    (dcm : List (String × List String)) (dsi : List (String × ℕ)) (yIndex : ℕ)
    (rawValues : List String) : Option (List ℚ × ℚ) :=
  let values := rawValues.map jsTrim
  match (values.get? yIndex).bind pf with
  | none => none
  | some yVal =>
    match xIndices.mapM (fun p => (values.get? p.2).bind pf) with
    | none => none
    | some xVals =>
      let dummyVals := dcm.bind (fun p =>
        match objGet? dsi p.1 with
        | none => []
        | some srcIdx =>
          (p.2.drop 1).map (fun cat => if values.get? srcIdx = some cat then (1 : ℚ) else 0))
      some (xVals ++ dummyVals, yVal)

/-- Gram matrix `DᵗD` of a design matrix, sized by the first row's width
(`X[0].length` in the source). -/
def gramMatrix (D : Mat) : Mat :=
  let w := (D.headD []).length
  (List.range w).map (fun i => (List.range w).map (fun j =>
    (D.map (fun row => row.getD i 0 * row.getD j 0)).sum))

/-- Moment vector `Dᵗy`. -/
def gramVector (D : Mat) (y : List ℚ) : List ℚ :=
  let w := (D.headD []).length
  (List.range w).map (fun i => ((D.zip y).map (fun rz => rz.1.getD i 0 * rz.2)).sum)

/-- OLS solution of the normal equations (`multipleLinearRegression`):
intercept and slope vector. -/
def multipleLinearRegression (X : Mat) (y : List ℚ) : ℚ × List ℚ :=
  let designMatrix := X.map (fun r => (1 : ℚ) :: r)
  let beta := gaussianElimination (gramMatrix designMatrix) (gramVector designMatrix y)
  (beta.headD 0, beta.drop 1)

/-- A JS `A[i][j]` read in the statistics block.  When the row `A[i]` is
missing, `A[i]` is `undefined` and indexing it throws a TypeError (`none`,
caught by the block's `try/catch`); when the row exists but the entry does
not, the read yields `undefined`, which enters the following arithmetic as
NaN. -/
def getEntryJ? (A : Mat) (i j : ℕ) : Option JsNum :=
  match A.get? i with
  | none => none
  | some row =>
    match row.get? j with
    | none => some .nan
    | some q => some (.num q)

/-- Concatenated predictor-name list (`allXCols`). -/
def allXColsOf (a d : List String) : List String := a ++ d

/-- Fitted intercept (`regression.intercept`). -/
def interceptOf (rd : Mat) (y : List ℚ) : ℚ := (multipleLinearRegression rd y).1

/-- Fitted slope vector (`regression.slopes`). -/
def slopesValsOf (rd : Mat) (y : List ℚ) : List ℚ := (multipleLinearRegression rd y).2

/-- The slope read `regression.slopes[i]`: NaN (JS `undefined`) out of
bounds. -/
def slopeValJ (slopesVals : List ℚ) (i : ℕ) : JsNum :=
  match slopesVals.get? i with
  | some q => .num q
  | none => .nan

/-- The `slopes` object: one property write per predictor name, in order. -/
def slopesObjOf (allXCols : List String) (slopesVals : List ℚ) : List (String × JsNum) :=
  allXCols.enum.foldl (fun m p => objSet m p.2 (slopeValJ slopesVals p.1)) []

/-- One prediction: `intercept + Σ slopes[allXCols[i]] * row[i]`. -/
def predictRow (allXCols : List String) (slopes : List (String × JsNum))
    (intercept : ℚ) (row : List ℚ) : JsNum :=
  row.enum.foldl (fun pred p =>
    pred + (match allXCols.get? p.1 with
            | some name => (objGet? slopes name).getD .nan
            | none => .nan) * .num p.2) (.num intercept)

/-- All predictions, aligned with the retained rows. -/
def predictionsOf (rd : Mat) (allXCols : List String) (slopes : List (String × JsNum))
    (intercept : ℚ) : List JsNum :=
  rd.map (predictRow allXCols slopes intercept)

/-- Mean of the retained responses (`stats.mean`). -/
def yMeanOf (y : List ℚ) : ℚ := y.sum / (y.length : ℚ)

/-- Total sum of squares. -/
def ssTotalOf (y : List ℚ) : ℚ := (y.map (fun v => (v - yMeanOf y) ^ 2)).sum

/-- Residual sum of squares, NaN-propagating through the predictions. -/
def ssResidualOf (y : List ℚ) (predictions : List JsNum) : JsNum :=
  ((y.zip predictions).map
    (fun yp => (JsNum.num yp.1 - yp.2) * (JsNum.num yp.1 - yp.2))).foldl (· + ·) (.num 0)

/-- Raw R² before the NaN coercion (`ssTotal === 0 ? 0 : 1 - ssRes/ssTotal`). -/
def rSquaredRawOf (ssTotal : ℚ) (ssResidual : JsNum) : JsNum :=
  if ssTotal = 0 then .num 0 else .num 1 - ssResidual / .num ssTotal

/-- Raw adjusted R² before the NaN coercion. -/
def adjustedRawOf (r : JsNum) (n p : ℕ) : JsNum :=
  if (p : ℚ) + 1 < (n : ℚ) then
    .num 1 - (.num 1 - r) * .num (((n : ℚ) - 1) / ((n : ℚ) - (p : ℚ) - 1))
  else r

/-- The `isNaN(v) ? 0 : v` coercion applied to R² and adjusted R². -/
def coerceNaN (x : JsNum) : ℚ :=
  match x with
  | .nan => 0
  | .num q => q

/-- Mean squared error for the coefficient statistics. -/
def mseOf (ssResidual : JsNum) (n p : ℕ) : JsNum :=
  if (p : ℚ) + 1 < (n : ℚ) then ssResidual / .num ((n : ℚ) - (p : ℚ) - 1)
  else ssResidual / .num ((n : ℚ) - 1)

/-- Residual standard error (`0` for small samples). -/
def standardErrorOf (ops : RealOps) (ssResidual : JsNum) (n p : ℕ) : JsNum :=
  if (p : ℚ) + 1 < (n : ℚ) then ops.sqrtJ (ssResidual / .num ((n : ℚ) - (p : ℚ) - 1))
  else .num 0

/-- One coefficient-statistics entry from a coefficient and its standard
error. -/
def coefStatFor (ops : RealOps) (coef se : JsNum) (df tCritical : ℚ) : CoefStat :=
  let tStat := if se.gtq 0 then coef / se else .num 0
  { coefficient := coef
    standardError := se
    tStat := tStat
    pValue := calculatePValue ops tStat df
    ci95Lower := coef - .num tCritical * se
    ci95Upper := coef + .num tCritical * se }

/-- The per-predictor loop of the coefficient-statistics block.  Reading
`(XᵗX)⁻¹[i+1][i+1]` when the row `(XᵗX)⁻¹[i+1]` is missing throws a
TypeError before the entry is assigned; the `try/catch` around the block
swallows it, so the loop stops and the entries already assigned remain. -/
def coefStatsLoop (ops : RealOps) (slopesVals : List ℚ) (mse : JsNum)
    (XtXInv : Mat) (df tCritical : ℚ) :
    List (ℕ × String) → List (String × CoefStat) → List (String × CoefStat)
  | [], m => m
  | p :: rest, m =>
    match getEntryJ? XtXInv (p.1 + 1) (p.1 + 1) with
    | none => m
    | some e =>
      coefStatsLoop ops slopesVals mse XtXInv df tCritical rest
        (objSet m p.2 (coefStatFor ops (slopeValJ slopesVals p.1)
          (ops.sqrtJ (mse * e)) df tCritical))

/-- The `coefficientStats` object, built inside the source's `try/catch`:
the intercept entry (using `(XᵗX)⁻¹[0][0]`) followed by one entry per
predictor name (using `(XᵗX)⁻¹[i+1][i+1]`).  A TypeError thrown by indexing
a missing `(XᵗX)⁻¹` row is caught, leaving exactly the entries assigned
before the throw. -/
def coefficientStatsOf (ops : RealOps) (allXCols : List String) (slopesVals : List ℚ)
    (intercept : ℚ) (mse : JsNum) (XtXInv : Mat) (df : ℚ) : List (String × CoefStat) :=
  let tCritical := getCriticalTValue df
  match getEntryJ? XtXInv 0 0 with
  | none => []
  | some e0 =>
    coefStatsLoop ops slopesVals mse XtXInv df tCritical allXCols.enum
      (objSet [] "Intercept" (coefStatFor ops (.num intercept)
        (ops.sqrtJ (mse * e0)) df tCritical))

/-- The successful tail of `performLinearRegression`: coefficient extraction,
predictions, goodness-of-fit statistics (with the NaN-to-0 coercions for R²
and adjusted R²), and the coefficient-statistics object.  Only the
coefficient-statistics block sits inside the source's `try/catch`; the
TypeError thrown by indexing a missing `(XᵗX)⁻¹` row (which happens when the
design rows are narrower than the predictor list, e.g. with a dummy source
column absent from the header) is caught there and truncates
`coefficientStats` to the entries assigned before the throw — see
`coefStatsLoop`.  The fields computed before the block are unaffected. -/
def mkRegressionResult (ops : RealOps) (rd : Mat) (y : List ℚ)
    (actualCsvColumns dummyColumnNames : List String) : RegressionResult :=
  let allXCols := allXColsOf actualCsvColumns dummyColumnNames
  let intercept := interceptOf rd y
  let slopesVals := slopesValsOf rd y
  let slopes := slopesObjOf allXCols slopesVals
  let predictions := predictionsOf rd allXCols slopes intercept
  let n := y.length
  let p := allXCols.length
  let ssTotal := ssTotalOf y
  let ssResidual := ssResidualOf y predictions
  let rSquaredRaw := rSquaredRawOf ssTotal ssResidual
  let rSquared := coerceNaN rSquaredRaw
  let XtXInv := invertMatrix (gramMatrix (rd.map (fun r => (1 : ℚ) :: r)))
  let df : ℚ := (n : ℚ) - (p : ℚ) - 1
  { slopes := slopes
    intercept := intercept
    rSquared := rSquared
    adjustedRSquared := coerceNaN (adjustedRawOf rSquaredRaw n p)
    multipleR := ops.sqrtJ (.num |rSquared|)
    standardError := standardErrorOf ops ssResidual n p
    predictions := predictions
    xColumns := allXCols
    coefficientStats := coefficientStatsOf ops allXCols slopesVals intercept
      (mseOf ssResidual n p) XtXInv df }

/-- The regression pipeline on the category-name structure of the dummy
mapping (`dummyCategoryMap`): error checks, filtering, then
`mkRegressionResult`. -/
def performLinearRegressionCore (ops : RealOps) (pf : String → Option ℚ)
    (rows : List (List String)) (xColumns : List String) (yColumn : String)
    (dcm : Option (List (String × List String))) : Except RegError RegressionResult :=
  if rows.length < 2 then .error .insufficientData
  else
    let headers := headersOf rows
    match idxOf? headers yColumn with
    | none => .error (.yColumnNotFound yColumn)
    | some yIndex =>
      let actualCsvColumns := actualCsvColumnsOf headers xColumns
      let dcmList := dcm.getD []
      let dummyColumnNames := dummyColumnNamesOf dcmList
      match buildXIndices headers actualCsvColumns with
      | .error e => .error e
      | .ok xIndices =>
        let dsi := dummySourceIndicesOf headers dcmList
        let parsed := (rows.drop 1).filterMap (buildRow pf xIndices dcmList dsi yIndex)
        if parsed.length < 2 then .error .insufficientData
        else .ok (mkRegressionResult ops (parsed.map Prod.fst) (parsed.map Prod.snd)
          actualCsvColumns dummyColumnNames)

/-- The category-name structure `dummyCategoryMap` extracted from the dummy
mapping: outer keys in insertion order, each with its inner key list
(`Object.keys`).  The supplied 0/1 vectors are dropped here, which is the only
place the pipeline reads the mapping. -/
def dummyKeyShape (dv : Option (List (String × List (String × List ℚ)))) :
    Option (List (String × List String)) :=
  dv.map (fun l => l.map (fun p => (p.1, p.2.map Prod.fst)))

/-- The regression entry point (`performLinearRegression`), on an
already-parsed table.  The dummy mapping enters only through its key
structure. -/
def performLinearRegression (ops : RealOps) (pf : String → Option ℚ)
    (rows : List (List String)) (xColumns : List String) (yColumn : String)
    (dummyVariables : Option (List (String × List (String × List ℚ)))) :
    Except RegError RegressionResult :=
  performLinearRegressionCore ops pf rows xColumns yColumn (dummyKeyShape dummyVariables)

/-! ## Dummy-variable utilities (`createDummyVariables`,
`detectCategoricalColumns`) -/

/-- Failure modes of `createDummyVariables`. -/
inductive DummyError where
  | insufficientData : DummyError
  | columnNotFound (c : String) : DummyError
deriving DecidableEq, Repr

/-- Lexicographic comparison by code points, the order of JavaScript's
default `Array.prototype.sort` comparator on the category strings. -/
def lexLeb : List Char → List Char → Bool
  | [], _ => true
  | _ :: _, [] => false
  | a :: as, b :: bs =>
    if a.toNat < b.toNat then true
    else if b.toNat < a.toNat then false
    else lexLeb as bs

/-- Indicator-column construction (`createDummyVariables`): distinct non-empty
values of the target column, sorted lexicographically; one 0/1 vector per
category, skipping only an explicitly supplied (non-empty) base-case
category. -/
def createDummyVariables (rows : List (List String)) (categoricalColumn : String)
    (baseCaseCategory : Option String) : Except DummyError (List (String × List ℚ)) :=
  if rows.length < 2 then .error .insufficientData
  else
    let headers := (rows.headD []).map jsTrim
    match idxOf? headers categoricalColumn with
    | none => .error (.columnNotFound categoricalColumn)
    | some colIndex =>
      let categories := dedupFirst ((rows.drop 1).filterMap (fun values =>
        match values.get? colIndex with
        | some v => if v ≠ "" then some v else none
        | none => none))
      let categoryList := categories.insertionSort
        (fun a b => lexLeb a.data b.data = true)
      let dummies := categoryList.foldl (fun m category =>
        if (match baseCaseCategory with
            | some b => decide (b ≠ "") && decide (category = b)
            | none => false) then m
        else objSet m (categoricalColumn ++ "_" ++ category)
          ((rows.drop 1).map (fun values =>
            if values.get? colIndex = some category then (1 : ℚ) else 0))) []
      .ok dummies

/-- The distinct non-empty sampled values (first 100 data rows) recorded under
a trimmed header name `h`; duplicate headers share one value set, and the
empty header name collects nothing (it is falsy in the sampling loop). -/
def sampledValues (rows : List (List String)) (headers : List String) (h : String) :
    List String :=
  let sampleRows := (rows.drop 1).take (min 100 (rows.length - 1))
  dedupFirst (sampleRows.bind (fun row => row.enum.filterMap (fun p =>
    match headers.get? p.1 with
    | some hd => if hd = h ∧ hd ≠ "" ∧ p.2 ≠ "" then some p.2 else none
    | none => none)))

/-- Categorical-column detection (`detectCategoricalColumns`): a column
qualifies when its sampled distinct values are not all numeric and their
count lies strictly between 1 and 10. -/
def detectCategoricalColumns (pf : String → Option ℚ) (rows : List (List String)) :
    List (String × List String) :=
  if rows.length < 2 then []
  else
    let headers := (rows.headD []).map jsTrim
    (dedupFirst headers).filterMap (fun h =>
      let uniqueValues := sampledValues rows headers h
      let isNumeric := uniqueValues.all (fun v => (pf v).isSome)
      if (!isNumeric && decide (1 < uniqueValues.length) &&
          decide (uniqueValues.length < 10)) = true
      then some (h, uniqueValues) else none)

/-! ## Helper lemmas about the embedding's containers -/

theorem idxOf?_isSome_iff {l : List String} {s : String} :
    (idxOf? l s).isSome ↔ s ∈ l := by
  induction l with
  | nil => simp [idxOf?]
  | cons a rest ih =>
    by_cases ha : a = s
    · simp [idxOf?, ha]
    · simp [idxOf?, ha, ih, Ne.symm ha]

theorem objGet?_eq_none_iff {α : Type} {m : List (String × α)} {k : String} :
    objGet? m k = none ↔ k ∉ m.map Prod.fst := by
  induction m with
  | nil => simp [objGet?]
  | cons kv rest ih =>
    by_cases hk : kv.1 = k
    · simp [objGet?, hk]
    · simp [objGet?, hk, ih, Ne.symm hk]

theorem objGet?_isSome_iff {α : Type} {m : List (String × α)} {k : String} :
    (objGet? m k).isSome ↔ k ∈ m.map Prod.fst := by
  induction m with
  | nil => simp [objGet?]
  | cons kv rest ih =>
    by_cases hk : kv.1 = k
    · simp [objGet?, hk]
    · simp [objGet?, hk, ih, Ne.symm hk]

theorem mem_objSet_elim {α : Type} {m : List (String × α)} {k : String} {v : α}
    {kv : String × α} (h : kv ∈ objSet m k v) : kv ∈ m ∨ kv = (k, v) := by
  induction m with
  | nil => simpa [objSet] using h
  | cons kv0 rest ih =>
    by_cases hk : kv0.1 = k
    · rcases h2 : objSet (kv0 :: rest) k v with _ | _
      all_goals
        simp only [objSet, if_pos hk] at h
        rcases List.mem_cons.mp h with h | h
        · exact Or.inr h
        · exact Or.inl (List.mem_cons_of_mem _ h)
    · simp only [objSet, if_neg hk] at h
      rcases List.mem_cons.mp h with h | h
      · exact Or.inl (h ▸ List.mem_cons_self _ _)
      · rcases ih h with h | h
        · exact Or.inl (List.mem_cons_of_mem _ h)
        · exact Or.inr h

theorem mem_keys_objSet {α : Type} {m : List (String × α)} {k k' : String} {v : α} :
    k' ∈ (objSet m k v).map Prod.fst ↔ k' ∈ m.map Prod.fst ∨ k' = k := by
  induction m with
  | nil => simp [objSet]
  | cons kv rest ih =>
    by_cases hk : kv.1 = k
    · simp [objSet, hk]
      tauto
    · simp [objSet, hk, ih]
      tauto

theorem objSet_fresh {α : Type} {m : List (String × α)} {k : String} {v : α} :
    k ∉ m.map Prod.fst → objSet m k v = m ++ [(k, v)] := by
  induction m with
  | nil => intro h; rfl
  | cons kv rest ih =>
    intro h
    simp only [List.map_cons, List.mem_cons, not_or] at h
    cases kv with
    | mk k2 v2 =>
      simp only at h
      have hne : ¬ (k2 = k) := fun he => h.1 he.symm
      simp only [objSet, if_neg hne, List.cons_append]
      rw [ih h.2]

theorem foldl_skip {α β : Type} (skip : β → Bool) (f : α → β → α) :
    ∀ (l : List β) (acc : α),
      l.foldl (fun m c => if skip c then m else f m c) acc =
        (l.filter (fun c => !skip c)).foldl f acc := by
  intro l
  induction l with
  | nil => intro acc; rfl
  | cons a rest ih =>
    intro acc
    by_cases ha : skip a
    · simp [List.foldl, ha, List.filter, ih]
    · simp [List.foldl, ha, List.filter, ih]

theorem mapM_some_length {α β : Type} (f : α → Option β) :
    ∀ {l : List α} {l' : List β}, l.mapM f = some l' → l'.length = l.length := by
  intro l
  induction l with
  | nil => intro l' h; simp only [List.mapM_nil, Option.pure_def, Option.some.injEq] at h; simp [← h]
  | cons a rest ih =>
    intro l' h
    simp only [List.mapM_cons, Option.pure_def, Option.bind_eq_bind, Option.bind_eq_some,
      Option.some.injEq] at h
    obtain ⟨b, hb, l'', hl'', rfl⟩ := h
    simp [ih hl'']

theorem gaussianElimination_length (A : Mat) (b : List ℚ) :
    (gaussianElimination A b).length = A.length := by
  unfold gaussianElimination
  rw [backSubAux_length]
  simp

/-! ## Structural lemmas about the pipeline -/

/-- The resolved index map of the present X columns. -/
def xIndicesOf (headers xColumns : List String) : List (String × ℕ) :=
  (actualCsvColumnsOf headers xColumns).filterMap
    (fun c => (idxOf? headers c).map (fun i => (c, i)))

theorem contains_iff_mem {l : List String} {c : String} :
    l.contains c = true ↔ c ∈ l := List.elem_iff

theorem buildXIndices_ok (headers : List String) :
    ∀ l : List String, (∀ c ∈ l, c ∈ headers) →
      buildXIndices headers l =
        .ok (l.filterMap (fun c => (idxOf? headers c).map (fun i => (c, i)))) := by
  intro l
  induction l with
  | nil => intro _; rfl
  | cons c rest ih =>
    intro h
    have hc : (idxOf? headers c).isSome :=
      idxOf?_isSome_iff.mpr (h c (List.mem_cons_self _ _))
    obtain ⟨i, hi⟩ := Option.isSome_iff_exists.mp hc
    simp only [buildXIndices, hi, List.filterMap_cons, Option.map_some]
    rw [ih (fun c' hc' => h c' (List.mem_cons_of_mem _ hc'))]
    rfl

theorem buildXIndices_actual_ok (headers xColumns : List String) :
    buildXIndices headers (actualCsvColumnsOf headers xColumns) =
      .ok (xIndicesOf headers xColumns) := by
  apply buildXIndices_ok
  intro c hc
  have := List.of_mem_filter hc
  exact contains_iff_mem.mp this

theorem mkRegressionResult_xColumns (ops : RealOps) (rd : Mat) (y : List ℚ)
    (a d : List String) :
    (mkRegressionResult ops rd y a d).xColumns = allXColsOf a d := rfl

theorem mkRegressionResult_slopes (ops : RealOps) (rd : Mat) (y : List ℚ)
    (a d : List String) :
    (mkRegressionResult ops rd y a d).slopes =
      slopesObjOf (allXColsOf a d) (slopesValsOf rd y) := rfl

theorem mkRegressionResult_predictions (ops : RealOps) (rd : Mat) (y : List ℚ)
    (a d : List String) :
    (mkRegressionResult ops rd y a d).predictions =
      predictionsOf rd (allXColsOf a d) (slopesObjOf (allXColsOf a d) (slopesValsOf rd y))
        (interceptOf rd y) := rfl

theorem mkRegressionResult_multipleR (ops : RealOps) (rd : Mat) (y : List ℚ)
    (a d : List String) :
    (mkRegressionResult ops rd y a d).multipleR =
      ops.sqrtJ (.num |coerceNaN (rSquaredRawOf (ssTotalOf y)
        (ssResidualOf y (predictionsOf rd (allXColsOf a d)
          (slopesObjOf (allXColsOf a d) (slopesValsOf rd y)) (interceptOf rd y))))|) := rfl

theorem mkRegressionResult_standardError (ops : RealOps) (rd : Mat) (y : List ℚ)
    (a d : List String) :
    (mkRegressionResult ops rd y a d).standardError =
      standardErrorOf ops (ssResidualOf y (predictionsOf rd (allXColsOf a d)
          (slopesObjOf (allXColsOf a d) (slopesValsOf rd y)) (interceptOf rd y)))
        y.length (allXColsOf a d).length := rfl

theorem mkRegressionResult_coefficientStats (ops : RealOps) (rd : Mat) (y : List ℚ)
    (a d : List String) :
    (mkRegressionResult ops rd y a d).coefficientStats =
      coefficientStatsOf ops (allXColsOf a d) (slopesValsOf rd y) (interceptOf rd y)
        (mseOf (ssResidualOf y (predictionsOf rd (allXColsOf a d)
          (slopesObjOf (allXColsOf a d) (slopesValsOf rd y)) (interceptOf rd y)))
          y.length (allXColsOf a d).length)
        (invertMatrix (gramMatrix (rd.map (fun r => (1 : ℚ) :: r))))
        ((y.length : ℚ) - ((allXColsOf a d).length : ℚ) - 1) := rfl

/-- The retained rows of the filtering phase for a given Y index. -/
def parsedRowsOf (pf : String → Option ℚ) (rows : List (List String))
    (xColumns : List String) (dcmList : List (String × List String)) (yIndex : ℕ) :
    List (List ℚ × ℚ) :=
  (rows.drop 1).filterMap (buildRow pf (xIndicesOf (headersOf rows) xColumns)
    dcmList (dummySourceIndicesOf (headersOf rows) dcmList) yIndex)

/-- Case analysis of a successful run: at least two table rows, a resolved Y
index, at least two surviving rows, and the result produced by
`mkRegressionResult` on the surviving data. -/
theorem performLinearRegressionCore_ok_elim {ops : RealOps} {pf : String → Option ℚ}
    {rows : List (List String)} {xColumns : List String} {yColumn : String}
    {dcm : Option (List (String × List String))} {r : RegressionResult}
    (hok : performLinearRegressionCore ops pf rows xColumns yColumn dcm = .ok r) :
    2 ≤ rows.length ∧
      ∃ yIndex, idxOf? (headersOf rows) yColumn = some yIndex ∧
        2 ≤ (parsedRowsOf pf rows xColumns (dcm.getD []) yIndex).length ∧
        r = mkRegressionResult ops
          ((parsedRowsOf pf rows xColumns (dcm.getD []) yIndex).map Prod.fst)
          ((parsedRowsOf pf rows xColumns (dcm.getD []) yIndex).map Prod.snd)
          (actualCsvColumnsOf (headersOf rows) xColumns)
          (dummyColumnNamesOf (dcm.getD [])) := by
  unfold performLinearRegressionCore at hok
  split at hok
  · exact absurd hok (by simp)
  · rename_i hlen
    dsimp only at hok
    refine ⟨by omega, ?_⟩
    rcases hyy : idxOf? (headersOf rows) yColumn with _ | yIndex <;> rw [hyy] at hok
    · exact absurd hok (by simp)
    · dsimp only at hok
      refine ⟨yIndex, rfl, ?_⟩
      rw [buildXIndices_actual_ok] at hok
      dsimp only at hok
      split at hok
      · exact absurd hok (by simp)
      · rename_i hcount
        rw [not_lt] at hcount
        refine ⟨hcount, ?_⟩
        simp only [Except.ok.injEq] at hok
        exact hok.symm

/-! ## Claim C9: the result depends only on the key structure of the dummy
mapping -/

/-- C9: two calls with the same table, X list and Y column whose dummy
mappings have the same outer keys and the same inner key lists (but arbitrary
number vectors) produce identical results: the pipeline reads the mapping
only through `Object.keys`. -/
theorem performLinearRegression_vector_independent (ops : RealOps)
    (pf : String → Option ℚ) (rows : List (List String)) (xColumns : List String)
    (yColumn : String) (dv dv' : Option (List (String × List (String × List ℚ))))
    (h : dummyKeyShape dv = dummyKeyShape dv') :
    performLinearRegression ops pf rows xColumns yColumn dv =
      performLinearRegression ops pf rows xColumns yColumn dv' := by
  unfold performLinearRegression
  rw [h]

/-- Witness for C9: two mappings over the same keys with different vectors
give the same call result. -/
theorem performLinearRegression_vector_independent_witness :
    performLinearRegression testOps natParse [["C", "Y"], ["a", "1"], ["b", "2"]] []
        "Y" (some [("C", [("a", [1, 0]), ("b", [0, 1])])]) =
      performLinearRegression testOps natParse [["C", "Y"], ["a", "1"], ["b", "2"]] []
        "Y" (some [("C", [("a", [5, 7]), ("b", [])])]) :=
  performLinearRegression_vector_independent testOps natParse _ _ _ _ _ rfl

/-! ## Claim C10: no column-not-found failure for X names -/

/-- C10: the missing-X-column throw is unreachable (absent names are filtered
out before index resolution), and a successful result's `xColumns` is the
header-present X names in caller order followed by the synthesized dummy
names. -/
theorem performLinearRegression_no_xColumnNotFound (ops : RealOps)
    (pf : String → Option ℚ) (rows : List (List String)) (xColumns : List String)
    (yColumn : String) (dv : Option (List (String × List (String × List ℚ)))) :
    (∀ c, performLinearRegression ops pf rows xColumns yColumn dv ≠
      .error (.xColumnNotFound c)) ∧
    (∀ r, performLinearRegression ops pf rows xColumns yColumn dv = .ok r →
      r.xColumns = xColumns.filter (fun c => (headersOf rows).contains c) ++
        dummyColumnNamesOf ((dummyKeyShape dv).getD [])) := by
  constructor
  · intro c hc
    unfold performLinearRegression performLinearRegressionCore at hc
    split at hc
    · exact absurd hc (by simp)
    · dsimp only at hc
      rcases hyy : idxOf? (headersOf rows) yColumn with _ | yIndex <;> rw [hyy] at hc
      · exact absurd hc (by simp)
      · dsimp only at hc
        rw [buildXIndices_actual_ok] at hc
        dsimp only at hc
        split at hc
        · exact absurd hc (by simp)
        · exact absurd hc (by simp)
  · intro r hok
    obtain ⟨_, yIndex, _, _, hr⟩ := performLinearRegressionCore_ok_elim hok
    rw [hr, mkRegressionResult_xColumns]
    rfl

/-- Witness for C10: a call listing one absent X column ("Ghost") succeeds and
its `xColumns` contains only the present name. -/
theorem performLinearRegression_no_xColumnNotFound_witness :
    performLinearRegression testOps natParse [["X", "Y"], ["1", "2"], ["2", "3"]]
        ["X", "Ghost"] "Y" none ≠ .error (.xColumnNotFound "Ghost") ∧
    (∀ r, performLinearRegression testOps natParse [["X", "Y"], ["1", "2"], ["2", "3"]]
        ["X", "Ghost"] "Y" none = .ok r → r.xColumns = ["X"]) := by
  constructor
  · exact (performLinearRegression_no_xColumnNotFound testOps natParse _ _ _ _).1 "Ghost"
  · intro r hok
    have h := (performLinearRegression_no_xColumnNotFound testOps natParse
      [["X", "Y"], ["1", "2"], ["2", "3"]] ["X", "Ghost"] "Y" none).2 r hok
    rw [h]
    decide

/-! ## Claim C2: when the pipeline fails with the data-insufficiency error -/

/-- The number of rows surviving the filtering phase (0 when the Y column
cannot be resolved, in which case filtering never runs). -/
def survivorCount (pf : String → Option ℚ) (rows : List (List String))
    (xColumns : List String) (yColumn : String)
    (dcmList : List (String × List String)) : ℕ :=
  match idxOf? (headersOf rows) yColumn with
  | none => 0
  | some yIndex => (parsedRowsOf pf rows xColumns dcmList yIndex).length

/-- C2 (amended): provided the Y column resolves (otherwise the failure is
`ColumnNotFound`), the pipeline fails with the data-insufficiency error
exactly when fewer than 2 rows survive filtering; there is no
predictors-plus-2 check. -/
theorem performLinearRegression_insufficient_iff (ops : RealOps)
    (pf : String → Option ℚ) (rows : List (List String)) (xColumns : List String)
    (yColumn : String) (dv : Option (List (String × List (String × List ℚ))))
    (hy : 2 ≤ rows.length → (idxOf? (headersOf rows) yColumn).isSome) :
    (performLinearRegression ops pf rows xColumns yColumn dv =
        .error .insufficientData ↔
      survivorCount pf rows xColumns yColumn ((dummyKeyShape dv).getD []) < 2) := by
  unfold performLinearRegression performLinearRegressionCore
  split
  · rename_i hlen
    refine iff_of_true rfl ?_
    unfold survivorCount
    rcases hq : idxOf? (headersOf rows) yColumn with _ | yIndex <;> dsimp only
    · norm_num
    ·
      have h1 : (parsedRowsOf pf rows xColumns ((dummyKeyShape dv).getD []) yIndex).length ≤
          (rows.drop 1).length := List.length_filterMap_le _ _
      have h2 : (rows.drop 1).length ≤ 1 := by
        rw [List.length_drop]
        omega
      omega
  · rename_i hlen
    dsimp only
    have hys := hy (by omega)
    obtain ⟨yIndex, hyy⟩ := Option.isSome_iff_exists.mp hys
    rw [hyy]
    dsimp only
    rw [buildXIndices_actual_ok]
    dsimp only
    unfold survivorCount
    rw [hyy]
    split
    · rename_i hcnt
      exact iff_of_true rfl hcnt
    · rename_i hcnt
      refine iff_of_false (by simp) ?_
      exact hcnt

/-- Witness for C2: with one of two data rows dropped for a non-numeric X
cell, only one row survives and the call fails with the insufficiency
error. -/
theorem performLinearRegression_insufficient_iff_witness :
    survivorCount natParse [["X", "Y"], ["1", "2"], ["a", "5"]] ["X"] "Y" [] = 1 ∧
    performLinearRegression testOps natParse [["X", "Y"], ["1", "2"], ["a", "5"]]
      ["X"] "Y" none = .error .insufficientData :=
  ⟨by decide,
   (performLinearRegression_insufficient_iff testOps natParse
      [["X", "Y"], ["1", "2"], ["a", "5"]] ["X"] "Y" none (by decide)).mpr (by decide)⟩

/-- Counterexample to C2 as stated: two rows survive with one predictor, so
fewer rows survive than predictors plus 2 (2 < 3), yet the call succeeds
instead of failing with the insufficiency error. -/
theorem performLinearRegression_no_predictor_margin_check :
    survivorCount natParse [["X", "Y"], ["1", "2"], ["2", "3"]] ["X"] "Y" [] = 2 ∧
    (actualCsvColumnsOf (headersOf [["X", "Y"], ["1", "2"], ["2", "3"]]) ["X"]).length +
      (dummyColumnNamesOf []).length = 1 ∧
    2 < 1 + 2 ∧
    (performLinearRegression testOps natParse [["X", "Y"], ["1", "2"], ["2", "3"]]
      ["X"] "Y" none).isOk = true := by
  refine ⟨by decide, by decide, by norm_num, by decide⟩

/-! ## C8: categorical detection -/

/-- C8 (amended): with at least 2 table rows, a pair `(h, vs)` is produced by
`detectCategoricalColumns` exactly when `h` is a (deduplicated, trimmed)
header whose sampled distinct non-empty values `vs` are not all numeric and
number between 2 and 9 inclusive (the source tests `> 1 && < 10`, so a count
of exactly 2 or exactly 9 qualifies). -/
theorem detectCategoricalColumns_iff (pf : String → Option ℚ)
    (rows : List (List String)) (h2 : 2 ≤ rows.length) (h : String)
    (vs : List String) :
    (h, vs) ∈ detectCategoricalColumns pf rows ↔
      (h ∈ dedupFirst ((rows.headD []).map jsTrim) ∧
       vs = sampledValues rows ((rows.headD []).map jsTrim) h ∧
       vs.all (fun v => (pf v).isSome) = false ∧
       2 ≤ vs.length ∧ vs.length ≤ 9) := by
  unfold detectCategoricalColumns
  rw [if_neg (by omega)]
  constructor
  · intro hmem
    rcases List.mem_filterMap.mp hmem with ⟨a, ha, hfa⟩
    dsimp only at hfa
    rw [Option.ite_none_right_eq_some] at hfa
    obtain ⟨hcond, heq⟩ := hfa
    simp only [Option.some.injEq, Prod.mk.injEq] at heq
    obtain ⟨rfl, rfl⟩ := heq
    simp only [Bool.and_eq_true, Bool.not_eq_true', decide_eq_true_eq] at hcond
    exact ⟨ha, rfl, hcond.1.1, by omega, by omega⟩
  · rintro ⟨ha, rfl, hnum, hlo, hhi⟩
    refine List.mem_filterMap.mpr ⟨h, ha, ?_⟩
    dsimp only
    rw [Option.ite_none_right_eq_some]
    refine ⟨?_, rfl⟩
    simp only [Bool.and_eq_true, Bool.not_eq_true', decide_eq_true_eq]
    exact ⟨⟨hnum, by omega⟩, by omega⟩

/-- Witness for C8: a three-row table whose single column "C" holds the two
non-numeric values "a" and "b" (appearing twice) is detected as categorical. -/
theorem detectCategoricalColumns_iff_witness :
    ("C", ["a", "b"]) ∈ detectCategoricalColumns natParse
      [["C"], ["a"], ["b"], ["a"]] :=
  (detectCategoricalColumns_iff natParse [["C"], ["a"], ["b"], ["a"]] (by decide)
    "C" ["a", "b"]).mpr (by decide)

/-- Counterexample to C8 as stated: a column with exactly 2 distinct sampled
values is classified as categorical, although 2 is not strictly between
2 and 9. -/
theorem detectCategoricalColumns_count_two :
    ("C", ["a", "b"]) ∈ detectCategoricalColumns natParse [["C"], ["a"], ["b"]] ∧
    (["a", "b"] : List String).length = 2 := by decide

/-! ## C1: implicit reference category -/

/-- The sorted distinct non-empty values of data column `colIndex`, as
enumerated by `createDummyVariables`. -/
def categoryListOf (rows : List (List String)) (colIndex : ℕ) : List String :=
  (dedupFirst ((rows.drop 1).filterMap (fun values =>
    match values.get? colIndex with
    | some v => if v ≠ "" then some v else none
    | none => none))).insertionSort (fun a b => lexLeb a.data b.data = true)

theorem foldl_objSet_map_fst {α : Type} (key : String → String) (vec : String → α) :
    ∀ (l : List String) (m : List (String × α)),
      (m.map Prod.fst ++ l.map key).Nodup →
      (l.foldl (fun acc x => objSet acc (key x) (vec x)) m).map Prod.fst =
        m.map Prod.fst ++ l.map key := by
  intro l
  induction l with
  | nil => intro m _; simp
  | cons x rest ih =>
    intro m h
    have h' : ((m.map Prod.fst ++ [key x]) ++ rest.map key).Nodup := by
      simpa [List.append_assoc] using h
    have hfresh : key x ∉ m.map Prod.fst := by
      rcases List.nodup_append.mp h with ⟨_, _, hdisj⟩
      intro hmem
      exact hdisj hmem (List.mem_cons_self _ _)
    have hkeys : (objSet m (key x) (vec x)).map Prod.fst =
        m.map Prod.fst ++ [key x] := by
      rw [objSet_fresh hfresh]; simp
    simp only [List.foldl_cons, List.map_cons]
    rw [ih (objSet m (key x) (vec x)) (by rw [hkeys]; exact h'), hkeys]
    simp

theorem string_append_left_injective (p : String) :
    Function.Injective (fun s => p ++ s) := by
  intro a b h
  have hd : p.data ++ a.data = p.data ++ b.data := by
    simpa [String.data_append] using congrArg String.data h
  exact String.ext (List.append_cancel_left hd)

theorem categoryListOf_nodup (rows : List (List String)) (colIndex : ℕ) :
    (categoryListOf rows colIndex).Nodup :=
  (List.perm_insertionSort _ _).symm.nodup (nodup_dedupFirst _)

/-- C1 (corrected): when `createDummyVariables` is called without an explicit
base-case category, no category is skipped: the returned mapping has one
indicator column per distinct non-empty category value, keyed
`column ++ "_" ++ category` in lexicographically sorted order — in particular
the first sorted category is materialized like every other. -/
theorem createDummyVariables_none_no_skip (rows : List (List String))
    (c : String) (h2 : 2 ≤ rows.length) (colIndex : ℕ)
    (hcol : idxOf? ((rows.headD []).map jsTrim) c = some colIndex) :
    (createDummyVariables rows c none).map (fun m => m.map Prod.fst) =
      .ok ((categoryListOf rows colIndex).map (fun cat => c ++ "_" ++ cat)) := by
  unfold createDummyVariables
  rw [if_neg (by omega)]
  dsimp only
  rw [hcol]
  dsimp only
  simp only [Except.map, Except.ok.injEq]
  have hnodup : (([] : List (String × List ℚ)).map Prod.fst ++
      (categoryListOf rows colIndex).map (fun cat => c ++ "_" ++ cat)).Nodup := by
    simp only [List.map_nil, List.nil_append]
    exact (categoryListOf_nodup rows colIndex).map
      (string_append_left_injective (c ++ "_"))
  have := foldl_objSet_map_fst (fun cat => c ++ "_" ++ cat)
    (fun category => (rows.drop 1).map (fun values =>
      if values.get? colIndex = some category then (1 : ℚ) else 0))
    (categoryListOf rows colIndex) [] hnodup
  simpa [categoryListOf] using this

/-- Witness for C1: a table whose column "C" carries values "b", "a", "b"
yields columns "C_a" and "C_b" — both categories, sorted, none skipped. -/
theorem createDummyVariables_none_no_skip_witness :
    (createDummyVariables [["C"], ["b"], ["a"], ["b"]] "C" none).map
      (fun m => m.map Prod.fst) =
      .ok ((categoryListOf [["C"], ["b"], ["a"], ["b"]] 0).map
        (fun cat => "C" ++ "_" ++ cat)) :=
  createDummyVariables_none_no_skip [["C"], ["b"], ["a"], ["b"]] "C"
    (by decide) 0 (by decide)

/-- Counterexample to C1 as stated: called without an explicit reference
category on values "a" and "b", the first sorted category "a" still gets an
indicator column ("C_a"); nothing is treated as a reference. -/
theorem createDummyVariables_reference_materialized :
    (createDummyVariables [["C"], ["a"], ["b"]] "C" none).toOption.map
      (fun m => m.map Prod.fst) = some ["C_a", "C_b"] := by decide

/-! ## Claim C5: the reference category name in a successful result -/

theorem mem_keys_foldl_objSet {α β : Type} (key : β → String) (vec : β → α) :
    ∀ (l : List β) (m : List (String × α)) (k : String),
      k ∈ (l.foldl (fun acc x => objSet acc (key x) (vec x)) m).map Prod.fst →
      k ∈ m.map Prod.fst ∨ ∃ x ∈ l, key x = k := by
  intro l
  induction l with
  | nil => intro m k h; exact Or.inl h
  | cons x rest ih =>
    intro m k h
    simp only [List.foldl_cons] at h
    rcases ih (objSet m (key x) (vec x)) k h with h2 | h2
    · rcases mem_keys_objSet.mp h2 with h3 | h3
      · exact Or.inl h3
      · exact Or.inr ⟨x, List.mem_cons_self _ _, h3.symm⟩
    · obtain ⟨y, hy, hk⟩ := h2
      exact Or.inr ⟨y, List.mem_cons_of_mem _ hy, hk⟩

theorem refName_ne_intercept (src cat : String) :
    src ++ "_" ++ cat ≠ "Intercept" := by
  intro h
  have hmem : '_' ∈ (src ++ "_" ++ cat).data := by
    rw [String.data_append, String.data_append]
    exact List.mem_append_left _ (List.mem_append_right _ (by decide))
  rw [h] at hmem
  exact absurd hmem (by decide)

theorem mem_keys_coefStatsLoop (ops : RealOps) (slopesVals : List ℚ) (mse : JsNum)
    (XtXInv : Mat) (df tCritical : ℚ) :
    ∀ (l : List (ℕ × String)) (m : List (String × CoefStat)) (k : String),
      k ∈ (coefStatsLoop ops slopesVals mse XtXInv df tCritical l m).map Prod.fst →
      k ∈ m.map Prod.fst ∨ ∃ x ∈ l, x.2 = k := by
  intro l
  induction l with
  | nil => intro m k h; exact Or.inl h
  | cons p rest ih =>
    intro m k h
    unfold coefStatsLoop at h
    rcases he : getEntryJ? XtXInv (p.1 + 1) (p.1 + 1) with _ | e <;>
      rw [he] at h <;> dsimp only at h
    · exact Or.inl h
    · rcases ih _ _ h with h2 | ⟨y, hy, hk⟩
      · rcases mem_keys_objSet.mp h2 with h3 | h3
        · exact Or.inl h3
        · exact Or.inr ⟨p, List.mem_cons_self _ _, h3.symm⟩
      · exact Or.inr ⟨y, List.mem_cons_of_mem _ hy, hk⟩

/-- C5 (amended): in a successful run the reference category name
`src ++ "_" ++ cat0` — built from a source column `src` and the first inner
key `cat0` of its category mapping — appears neither in the result's
`xColumns` nor among the keys of `slopes` or `coefficientStats`, provided it
collides neither with a caller-supplied X column name nor with a dummy name
generated from a non-reference category (such collisions are possible, see
the counterexample, and defeat the skip). -/
theorem performLinearRegression_reference_not_materialized (ops : RealOps)
    (pf : String → Option ℚ) (rows : List (List String)) (xColumns : List String)
    (yColumn : String) (dv : Option (List (String × List (String × List ℚ))))
    (src cat0 : String) (rest : List String)
    (hsrc : (src, cat0 :: rest) ∈ (dummyKeyShape dv).getD [])
    (hfresh : ∀ p ∈ (dummyKeyShape dv).getD [], ∀ cat ∈ p.2.drop 1,
      p.1 ++ "_" ++ cat ≠ src ++ "_" ++ cat0)
    (hx : src ++ "_" ++ cat0 ∉ xColumns) :
    ∀ r, performLinearRegression ops pf rows xColumns yColumn dv = .ok r →
      (src ++ "_" ++ cat0) ∉ r.xColumns ∧
      objGet? r.slopes (src ++ "_" ++ cat0) = none ∧
      objGet? r.coefficientStats (src ++ "_" ++ cat0) = none := by
  intro r hok
  obtain ⟨-, yIndex, -, -, hr⟩ := performLinearRegressionCore_ok_elim hok
  have hnotall : (src ++ "_" ++ cat0) ∉
      allXColsOf (actualCsvColumnsOf (headersOf rows) xColumns)
        (dummyColumnNamesOf ((dummyKeyShape dv).getD [])) := by
    intro hmem
    rcases List.mem_append.mp hmem with hmem | hmem
    · exact hx (List.mem_of_mem_filter hmem)
    · rcases List.mem_bind.mp hmem with ⟨p, hp, hmem2⟩
      rcases List.mem_map.mp hmem2 with ⟨cat, hcat, hname⟩
      exact hfresh p hp cat hcat hname
  refine ⟨?_, ?_, ?_⟩
  · rw [hr, mkRegressionResult_xColumns]
    exact hnotall
  · rw [hr, mkRegressionResult_slopes]
    rw [objGet?_eq_none_iff]
    intro hmem
    unfold slopesObjOf at hmem
    rcases mem_keys_foldl_objSet _ _ _ _ _ hmem with h | ⟨x, hxmem, hkey⟩
    · simp at h
    · apply hnotall
      rw [← hkey]
      have hs := List.mem_map_of_mem Prod.snd hxmem
      rwa [List.enum_map_snd] at hs
  · rw [hr, mkRegressionResult_coefficientStats]
    rw [objGet?_eq_none_iff]
    intro hmem
    unfold coefficientStatsOf at hmem
    dsimp only at hmem
    split at hmem
    · simp at hmem
    · rcases mem_keys_coefStatsLoop _ _ _ _ _ _ _ _ _ hmem with h | ⟨x, hxmem, hkey⟩
      · rcases mem_keys_objSet.mp h with h2 | h2
        · simp at h2
        · exact refName_ne_intercept src cat0 h2
      · apply hnotall
        rw [← hkey]
        have hs := List.mem_map_of_mem Prod.snd hxmem
        rwa [List.enum_map_snd] at hs

/-- Witness for C5: source column "A" with categories "q" (reference) and
"r"; the name "A_q" is absent from the successful result's columns, slopes
and coefficient statistics. -/
theorem performLinearRegression_reference_not_materialized_witness :
    ∃ r, performLinearRegression testOps natParse
        [["Y", "A"], ["1", "q"], ["2", "r"]] [] "Y"
        (some [("A", [("q", []), ("r", [])])]) = .ok r ∧
      ("A" ++ "_" ++ "q") ∉ r.xColumns ∧
      objGet? r.slopes ("A" ++ "_" ++ "q") = none ∧
      objGet? r.coefficientStats ("A" ++ "_" ++ "q") = none := by
  rcases hcall : performLinearRegression testOps natParse
      [["Y", "A"], ["1", "q"], ["2", "r"]] [] "Y"
      (some [("A", [("q", []), ("r", [])])]) with e | r
  · have hsome : (performLinearRegression testOps natParse
        [["Y", "A"], ["1", "q"], ["2", "r"]] [] "Y"
        (some [("A", [("q", []), ("r", [])])])).toOption.isSome = true := by decide
    rw [hcall] at hsome
    simp [Except.toOption] at hsome
  · exact ⟨r, rfl, performLinearRegression_reference_not_materialized testOps natParse
      [["Y", "A"], ["1", "q"], ["2", "r"]] [] "Y"
      (some [("A", [("q", []), ("r", [])])]) "A" "q" ["r"]
      (by decide) (by decide) (by decide) r hcall⟩

/-- Counterexample to C5 as stated: sources "A_B" (categories "p", "x") and
"A" (categories "B_x", "q") generate the columns "A_B_x" and "A_q"; the
reference name of source "A" — "A" ++ "_" ++ "B_x" = "A_B_x" — coincides
with a column generated from source "A_B" and so appears in the successful
result's `xColumns`. -/
theorem performLinearRegression_reference_collision :
    (performLinearRegression testOps natParse
        [["Y", "A", "A_B"], ["1", "q", "x"], ["2", "q", "p"]] [] "Y"
        (some [("A_B", [("p", []), ("x", [])]),
               ("A", [("B_x", []), ("q", [])])])).toOption.map
      RegressionResult.xColumns = some ["A_B_x", "A_q"] ∧
    "A" ++ "_" ++ "B_x" = "A_B_x" := by decide

/-! ## Claim C3: NaN-freedom of the core result fields -/

theorem gramMatrix_length (Dm : Mat) : (gramMatrix Dm).length = (Dm.headD []).length := by
  unfold gramMatrix
  simp

theorem xIndicesOf_length (headers xColumns : List String) :
    (xIndicesOf headers xColumns).length =
      (actualCsvColumnsOf headers xColumns).length := by
  unfold xIndicesOf
  have key : ∀ l : List String, (∀ c ∈ l, c ∈ headers) →
      (l.filterMap (fun c => (idxOf? headers c).map (fun i => (c, i)))).length =
        l.length := by
    intro l
    induction l with
    | nil => intro _; rfl
    | cons c rest ih =>
      intro h
      obtain ⟨i, hi⟩ := Option.isSome_iff_exists.mp
        (idxOf?_isSome_iff.mpr (h c (List.mem_cons_self _ _)))
      rw [List.filterMap_cons, hi, Option.map_some']
      dsimp only
      rw [List.length_cons, List.length_cons,
        ih (fun c' hc' => h c' (List.mem_cons_of_mem _ hc'))]
  apply key
  intro c hc
  exact contains_iff_mem.mp (List.of_mem_filter hc)

theorem dummySourceIndicesOf_isSome {headers : List String}
    {dcm : List (String × List String)} {p : String × List String}
    (hp : p ∈ dcm) (hidx : (idxOf? headers p.1).isSome) :
    (objGet? (dummySourceIndicesOf headers dcm) p.1).isSome := by
  obtain ⟨i, hi⟩ := Option.isSome_iff_exists.mp hidx
  apply objGet?_isSome_iff.mpr
  apply List.mem_map.mpr
  refine ⟨(p.1, i), ?_, rfl⟩
  unfold dummySourceIndicesOf
  exact List.mem_filterMap.mpr ⟨p, hp, by rw [hi]; rfl⟩

theorem buildRow_some_length {pf : String → Option ℚ} {xIndices : List (String × ℕ)}
    {dcm : List (String × List String)} {dsi : List (String × ℕ)} {yIndex : ℕ}
    {raw : List String} {ry : List ℚ × ℚ}
    (h : buildRow pf xIndices dcm dsi yIndex raw = some ry)
    (hsrc : ∀ p ∈ dcm, (objGet? dsi p.1).isSome) :
    ry.1.length = xIndices.length + (dummyColumnNamesOf dcm).length := by
  unfold buildRow at h
  dsimp only at h
  rcases hy : ((raw.map jsTrim).get? yIndex).bind pf with _ | yVal <;> rw [hy] at h
  · exact absurd h (by simp)
  · rcases hx : xIndices.mapM (fun p => ((raw.map jsTrim).get? p.2).bind pf)
        with _ | xVals <;> rw [hx] at h
    · exact absurd h (by simp)
    · dsimp only at h
      simp only [Option.some.injEq] at h
      subst h
      simp only [List.length_append]
      rw [mapM_some_length _ hx]
      congr 1
      unfold dummyColumnNamesOf
      rw [List.length_bind, List.length_bind]
      congr 1
      apply List.map_congr_left
      intro p hp
      obtain ⟨i, hi⟩ := Option.isSome_iff_exists.mp (hsrc p hp)
      dsimp only [Function.comp]
      rw [hi]
      simp

theorem parsedRowsOf_row_length {pf : String → Option ℚ} {rows : List (List String)}
    {xColumns : List String} {dcmList : List (String × List String)} {yIndex : ℕ}
    (hsrc : ∀ p ∈ dcmList, (idxOf? (headersOf rows) p.1).isSome) :
    ∀ q ∈ parsedRowsOf pf rows xColumns dcmList yIndex,
      q.1.length = (actualCsvColumnsOf (headersOf rows) xColumns).length +
        (dummyColumnNamesOf dcmList).length := by
  intro q hq
  unfold parsedRowsOf at hq
  rcases List.mem_filterMap.mp hq with ⟨raw, _, hbuild⟩
  have hs : ∀ p ∈ dcmList,
      (objGet? (dummySourceIndicesOf (headersOf rows) dcmList) p.1).isSome :=
    fun p hp => dummySourceIndicesOf_isSome hp (hsrc p hp)
  rw [buildRow_some_length hbuild hs, xIndicesOf_length]

theorem slopeValJ_ne_nan {vals : List ℚ} {i : ℕ} (h : i < vals.length) :
    slopeValJ vals i ≠ .nan := by
  unfold slopeValJ
  rcases hv : vals.get? i with _ | q <;> dsimp only
  · rw [List.get?_eq_none] at hv
    omega
  · simp

theorem mem_enum_bounds {α : Type} :
    ∀ (l : List α) (n : ℕ) (x : ℕ × α), x ∈ l.enumFrom n →
      n ≤ x.1 ∧ x.1 < n + l.length := by
  intro l
  induction l with
  | nil => intro n x h; simp [List.enumFrom] at h
  | cons a rest ih =>
    intro n x h
    rcases List.mem_cons.mp h with h | h
    · subst h
      simp
    · have := ih (n + 1) x h
      simp only [List.length_cons]
      omega

theorem mem_keys_foldl_objSet_of_seed {α β : Type} (key : β → String) (vec : β → α) :
    ∀ (l : List β) (m : List (String × α)) (k : String),
      k ∈ m.map Prod.fst →
      k ∈ (l.foldl (fun acc x => objSet acc (key x) (vec x)) m).map Prod.fst := by
  intro l
  induction l with
  | nil => intro m k h; exact h
  | cons x rest ih =>
    intro m k h
    simp only [List.foldl_cons]
    exact ih _ _ (mem_keys_objSet.mpr (Or.inl h))

theorem key_mem_keys_foldl_objSet {α β : Type} (key : β → String) (vec : β → α) :
    ∀ (l : List β) (m : List (String × α)) (x : β), x ∈ l →
      key x ∈ (l.foldl (fun acc b => objSet acc (key b) (vec b)) m).map Prod.fst := by
  intro l
  induction l with
  | nil => intro m x h; exact absurd h (List.not_mem_nil _)
  | cons b rest ih =>
    intro m x h
    simp only [List.foldl_cons]
    rcases List.mem_cons.mp h with h | h
    · subst h
      exact mem_keys_foldl_objSet_of_seed _ _ _ _ _
        (mem_keys_objSet.mpr (Or.inr rfl))
    · exact ih _ _ h

theorem mem_foldl_objSet_elim {α β : Type} (key : β → String) (vec : β → α) :
    ∀ (l : List β) (m : List (String × α)) (kv : String × α),
      kv ∈ l.foldl (fun acc x => objSet acc (key x) (vec x)) m →
      kv ∈ m ∨ ∃ x ∈ l, kv = (key x, vec x) := by
  intro l
  induction l with
  | nil => intro m kv h; exact Or.inl h
  | cons x rest ih =>
    intro m kv h
    simp only [List.foldl_cons] at h
    rcases ih _ _ h with h2 | ⟨y, hy, hkv⟩
    · rcases mem_objSet_elim h2 with h3 | h3
      · exact Or.inl h3
      · exact Or.inr ⟨x, List.mem_cons_self _ _, h3⟩
    · exact Or.inr ⟨y, List.mem_cons_of_mem _ hy, hkv⟩

theorem objGet?_mem {α : Type} {m : List (String × α)} {k : String} {v : α}
    (h : objGet? m k = some v) : (k, v) ∈ m := by
  induction m with
  | nil => simp [objGet?] at h
  | cons kv rest ih =>
    cases kv with
    | mk k' v' =>
      by_cases hk : k' = k
      · rw [objGet?, if_pos hk] at h
        injection h with h2
        subst hk
        subst h2
        exact List.mem_cons_self _ _
      · rw [objGet?, if_neg hk] at h
        exact List.mem_cons_of_mem _ (ih h)

theorem slopesObjOf_lookup {allXCols : List String} {vals : List ℚ}
    (hlen : vals.length = allXCols.length) :
    ∀ name ∈ allXCols, ∃ v, objGet? (slopesObjOf allXCols vals) name = some v ∧
      v ≠ .nan := by
  intro name hname
  obtain ⟨x, hx, hx2⟩ := List.mem_map.mp (by rw [List.enum_map_snd]; exact hname :
    name ∈ allXCols.enum.map Prod.snd)
  have hkey : name ∈ (slopesObjOf allXCols vals).map Prod.fst := by
    unfold slopesObjOf
    rw [← hx2]
    exact key_mem_keys_foldl_objSet (fun p : ℕ × String => p.2)
      (fun p => slopeValJ vals p.1) _ _ _ hx
  obtain ⟨v, hv⟩ := Option.isSome_iff_exists.mp (objGet?_isSome_iff.mpr hkey)
  refine ⟨v, hv, ?_⟩
  have hmem := objGet?_mem hv
  unfold slopesObjOf at hmem
  rcases mem_foldl_objSet_elim _ _ _ _ _ hmem with h | ⟨y, hy, hkv⟩
  · exact absurd h (List.not_mem_nil _)
  · have hbound := mem_enum_bounds allXCols 0 y hy
    have : v = slopeValJ vals y.1 := congrArg Prod.snd hkv
    rw [this]
    exact slopeValJ_ne_nan (by omega)

theorem predictRow_ne_nan {allXCols : List String} {slopes : List (String × JsNum)}
    {intercept : ℚ} {row : List ℚ}
    (hlen : row.length = allXCols.length)
    (hkeys : ∀ name ∈ allXCols, ∃ v, objGet? slopes name = some v ∧ v ≠ .nan) :
    predictRow allXCols slopes intercept row ≠ .nan := by
  unfold predictRow
  have key : ∀ (l : List (ℕ × ℚ)) (q : ℚ), (∀ p ∈ l, p.1 < allXCols.length) →
      (l.foldl (fun pred p => pred + (match allXCols.get? p.1 with
        | some name => (objGet? slopes name).getD .nan
        | none => .nan) * .num p.2) (.num q)) ≠ .nan := by
    intro l
    induction l with
    | nil => intro q _; simp
    | cons p rest ih =>
      intro q hp
      simp only [List.foldl_cons]
      have hidx : p.1 < allXCols.length := hp p (List.mem_cons_self _ _)
      rcases hname : allXCols.get? p.1 with _ | name
      · rw [List.get?_eq_none] at hname
        omega
      · obtain ⟨v, hv, hvn⟩ := hkeys name (List.get?_mem hname)
        rcases v with _ | b
        · exact absurd rfl hvn
        · dsimp only
          rw [hv]
          simp only [Option.getD_some, JsNum.mul_num, JsNum.add_num]
          exact ih _ (fun p' hp' => hp p' (List.mem_cons_of_mem _ hp'))
  apply key
  intro p hp
  have := mem_enum_bounds row 0 p hp
  omega

theorem ssResidualOf_num_nonneg {y : List ℚ} {preds : List JsNum}
    (h : ∀ x ∈ preds, x ≠ .nan) :
    ∃ s, ssResidualOf y preds = .num s ∧ 0 ≤ s := by
  unfold ssResidualOf
  have key : ∀ (l : List (ℚ × JsNum)) (a : ℚ), 0 ≤ a → (∀ x ∈ l, x.2 ≠ .nan) →
      ∃ s, (l.map (fun yp => (JsNum.num yp.1 - yp.2) * (JsNum.num yp.1 - yp.2))).foldl
        (· + ·) (.num a) = .num s ∧ 0 ≤ s := by
    intro l
    induction l with
    | nil => intro a ha _; exact ⟨a, rfl, ha⟩
    | cons p rest ih =>
      intro a ha hnan
      rcases hp2 : p.2 with _ | b
      · have := hnan p (List.mem_cons_self _ _)
        rw [hp2] at this
        exact absurd rfl this
      · simp only [List.map_cons, List.foldl_cons, hp2, JsNum.sub_num, JsNum.mul_num,
          JsNum.add_num]
        exact ih (a + (p.1 - b) * (p.1 - b))
          (by nlinarith [mul_self_nonneg (p.1 - b)])
          (fun x hx => hnan x (List.mem_cons_of_mem _ hx))
  apply key _ 0 le_rfl
  intro x hx
  cases x with
  | mk x1 x2 => exact h x2 (List.mem_zip hx).2

theorem standardErrorOf_ne_nan (ops : RealOps) {ssRes : JsNum} (n p : ℕ)
    (hs : ∃ s, ssRes = .num s ∧ 0 ≤ s) :
    standardErrorOf ops ssRes n p ≠ .nan := by
  obtain ⟨s, rfl, hsn⟩ := hs
  unfold standardErrorOf
  split
  · rename_i hlt
    have hd : (0 : ℚ) < (n : ℚ) - (p : ℚ) - 1 := by linarith
    rw [JsNum.div_num_num, if_neg (by linarith)]
    dsimp only [RealOps.sqrtJ]
    rw [if_neg (not_lt.mpr (div_nonneg hsn hd.le))]
    simp
  · simp

/-- C3 (amended): when every dummy source column of the mapping resolves in
the header, a successful result's JsNum-valued core fields are NaN-free:
`multipleR`, `standardError`, every `slopes` value and every prediction.
(`intercept`, `rSquared`, `adjustedRSquared` and the p-values are rational by
construction — the NaN-to-0 coercions and the p-value clamp are part of the
embedding — but the `coefficientStats` entries are NOT covered: their
standard errors take a square root of `mse * (XᵗX)⁻¹[i][i]`, whose radicand
can be negative on singular systems.  The slopes clause needs the
source-resolution hypothesis: a missing source column leaves the fitted
vector shorter than the predictor list, making a stored slope NaN — and
additionally truncates `coefficientStats` through the caught TypeError, see
the counterexample.) -/
theorem performLinearRegression_no_nan (ops : RealOps) (pf : String → Option ℚ)
    (rows : List (List String)) (xColumns : List String) (yColumn : String)
    (dv : Option (List (String × List (String × List ℚ))))
    (hsrc : ∀ p ∈ (dummyKeyShape dv).getD [], (idxOf? (headersOf rows) p.1).isSome) :
    ∀ r, performLinearRegression ops pf rows xColumns yColumn dv = .ok r →
      r.multipleR ≠ .nan ∧ r.standardError ≠ .nan ∧
      (∀ kv ∈ r.slopes, kv.2 ≠ .nan) ∧ (∀ x ∈ r.predictions, x ≠ .nan) := by
  intro r hok
  obtain ⟨-, yIndex, -, hcount, hr⟩ := performLinearRegressionCore_ok_elim hok
  set dcm := (dummyKeyShape dv).getD [] with hdcm
  set parsed := parsedRowsOf pf rows xColumns dcm yIndex with hparsed
  set A := actualCsvColumnsOf (headersOf rows) xColumns with hA
  set D := dummyColumnNamesOf dcm with hD
  have hrow : ∀ q ∈ parsed, q.1.length = A.length + D.length :=
    parsedRowsOf_row_length hsrc
  have hpne : parsed ≠ [] := by
    intro hnil
    rw [hnil] at hcount
    simp at hcount
  obtain ⟨q0, rest, hq⟩ := List.exists_cons_of_ne_nil hpne
  have hq0 : q0.1.length = A.length + D.length :=
    hrow q0 (by rw [hq]; exact List.mem_cons_self _ _)
  have hvals : (slopesValsOf (parsed.map Prod.fst) (parsed.map Prod.snd)).length =
      (allXColsOf A D).length := by
    unfold slopesValsOf multipleLinearRegression
    dsimp only
    rw [List.length_drop, gaussianElimination_length, gramMatrix_length, hq]
    simp only [List.map_cons, List.headD_cons, List.length_cons, allXColsOf,
      List.length_append]
    omega
  have hlookup : ∀ name ∈ allXColsOf A D,
      ∃ v, objGet? (slopesObjOf (allXColsOf A D)
        (slopesValsOf (parsed.map Prod.fst) (parsed.map Prod.snd))) name = some v ∧
        v ≠ .nan := slopesObjOf_lookup hvals
  have hpred : ∀ x ∈ predictionsOf (parsed.map Prod.fst) (allXColsOf A D)
      (slopesObjOf (allXColsOf A D)
        (slopesValsOf (parsed.map Prod.fst) (parsed.map Prod.snd)))
      (interceptOf (parsed.map Prod.fst) (parsed.map Prod.snd)), x ≠ .nan := by
    intro x hx
    unfold predictionsOf at hx
    rcases List.mem_map.mp hx with ⟨row, hrowmem, rfl⟩
    rcases List.mem_map.mp hrowmem with ⟨q, hqmem, rfl⟩
    refine predictRow_ne_nan ?_ hlookup
    rw [hrow q hqmem]
    simp [allXColsOf]
  refine ⟨?_, ?_, ?_, ?_⟩
  · rw [hr, mkRegressionResult_multipleR]
    dsimp only [RealOps.sqrtJ]
    rw [if_neg (not_lt.mpr (abs_nonneg _))]
    simp
  · rw [hr, mkRegressionResult_standardError]
    exact standardErrorOf_ne_nan ops _ _ (ssResidualOf_num_nonneg hpred)
  · intro kv hkv
    rw [hr, mkRegressionResult_slopes] at hkv
    unfold slopesObjOf at hkv
    rcases mem_foldl_objSet_elim _ _ _ _ _ hkv with h | ⟨x, hxmem, hkv2⟩
    · exact absurd h (List.not_mem_nil _)
    · have hb := mem_enum_bounds _ 0 x hxmem
      rw [hkv2]
      dsimp only
      refine slopeValJ_ne_nan ?_
      rw [hvals]
      omega
  · intro x hx
    rw [hr, mkRegressionResult_predictions] at hx
    exact hpred x hx

/-- Witness for C3: a plain numeric two-column fit (no dummy mapping) has a
NaN-free `multipleR`, `standardError`, slope set and prediction list. -/
theorem performLinearRegression_no_nan_witness :
    ∃ r, performLinearRegression testOps natParse
        [["X", "Y"], ["1", "2"], ["2", "3"], ["3", "5"]] ["X"] "Y" none = .ok r ∧
      r.multipleR ≠ .nan ∧ r.standardError ≠ .nan ∧
      (∀ kv ∈ r.slopes, kv.2 ≠ .nan) ∧ (∀ x ∈ r.predictions, x ≠ .nan) := by
  rcases hcall : performLinearRegression testOps natParse
      [["X", "Y"], ["1", "2"], ["2", "3"], ["3", "5"]] ["X"] "Y" none with e | r
  · have hsome : (performLinearRegression testOps natParse
        [["X", "Y"], ["1", "2"], ["2", "3"], ["3", "5"]] ["X"] "Y"
        none).toOption.isSome = true := by decide
    rw [hcall] at hsome
    simp [Except.toOption] at hsome
  · exact ⟨r, rfl, performLinearRegression_no_nan testOps natParse
      [["X", "Y"], ["1", "2"], ["2", "3"], ["3", "5"]] ["X"] "Y" none
      (by decide) r hcall⟩

theorem objSet_nil {α : Type} (k : String) (v : α) : objSet [] k v = [(k, v)] := rfl

theorem objSet_cons_ne {α : Type} {k1 k : String} (h : k1 ≠ k) (v1 v : α)
    (m : List (String × α)) :
    objSet ((k1, v1) :: m) k v = (k1, v1) :: objSet m k v := by
  simp [objSet, h]

theorem objGet?_cons_ne {α : Type} {k1 k : String} (h : k1 ≠ k) (v1 : α)
    (m : List (String × α)) :
    objGet? ((k1, v1) :: m) k = objGet? m k := by
  simp [objGet?, h]

theorem objGet?_cons_eq {α : Type} (k : String) (v : α) (m : List (String × α)) :
    objGet? ((k, v) :: m) k = some v := by
  simp [objGet?]

theorem coefStatFor_coefficient (ops : RealOps) (coef se : JsNum) (df tCritical : ℚ) :
    (coefStatFor ops coef se df tCritical).coefficient = coef := rfl

theorem foldl_length_preserved {α : Type} (f : List α → ℕ → List α)
    (hf : ∀ m k, (f m k).length = m.length) :
    ∀ (l : List ℕ) (m : List α), (l.foldl f m).length = m.length := by
  intro l
  induction l with
  | nil => intro m; rfl
  | cons a rest ih => intro m; rw [List.foldl_cons, ih, hf]

theorem swapList_length {α : Type} (l : List α) (i j : ℕ) :
    (swapList l i j).length = l.length := by
  unfold swapList
  rcases l.get? i with _ | a <;> rcases l.get? j with _ | b <;> simp

theorem gjStep_length (n : ℕ) (aug : Mat) (i : ℕ) :
    (gjStep n aug i).length = aug.length := by
  unfold gjStep
  dsimp only
  split
  · exact swapList_length aug i _
  · refine (foldl_length_preserved _ ?_ _ _).trans ?_
    · intro m k
      split <;> simp
    · rw [List.length_set, swapList_length]

theorem invertMatrix_length (A : Mat) : (invertMatrix A).length = A.length := by
  unfold invertMatrix
  dsimp only
  rw [List.length_map,
    foldl_length_preserved (gjStep A.length) (fun m k => gjStep_length _ _ _)]
  simp

theorem getEntryJ?_isSome {A : Mat} {i : ℕ} (j : ℕ) (h : i < A.length) :
    ∃ e, getEntryJ? A i j = some e := by
  unfold getEntryJ?
  rcases hg : A.get? i with _ | row <;> dsimp only
  · rw [List.get?_eq_none] at hg
    omega
  · rcases row.get? j with _ | q <;> dsimp only
    · exact ⟨.nan, rfl⟩
    · exact ⟨_, rfl⟩

theorem getEntryJ?_none {A : Mat} {i : ℕ} (j : ℕ) (h : A.length ≤ i) :
    getEntryJ? A i j = none := by
  unfold getEntryJ?
  rw [List.get?_eq_none.mpr h]

theorem mkRegressionResult_missing_source (y : List ℚ) :
    objGet? (mkRegressionResult testOps [[], []] y [] ["S_b"]).slopes "S_b" =
      some .nan ∧
    (mkRegressionResult testOps [[], []] y [] ["S_b"]).coefficientStats.map
      Prod.fst = ["Intercept"] := by
  have hvals : (slopesValsOf [[], []] y).length = 0 := by
    unfold slopesValsOf multipleLinearRegression
    dsimp only
    rw [List.length_drop, gaussianElimination_length, gramMatrix_length]
    rfl
  have hslope : slopeValJ (slopesValsOf [[], []] y) 0 = .nan := by
    unfold slopeValJ
    rw [List.get?_eq_none.mpr (by omega)]
  constructor
  · rw [mkRegressionResult_slopes]
    unfold slopesObjOf
    dsimp only [allXColsOf, List.nil_append, List.enum, List.enumFrom, List.foldl]
    rw [objSet_nil, objGet?_cons_eq, hslope]
  · rw [mkRegressionResult_coefficientStats]
    unfold coefficientStatsOf
    dsimp only [allXColsOf, List.nil_append, List.enum, List.enumFrom]
    have hXlen : (invertMatrix (gramMatrix (List.map (fun r => (1 : ℚ) :: r)
        [[], []]))).length = 1 := by
      rw [invertMatrix_length, gramMatrix_length]
      rfl
    obtain ⟨e0, he0⟩ := getEntryJ?_isSome (A := invertMatrix (gramMatrix
        (List.map (fun r => (1 : ℚ) :: r) [[], []]))) (i := 0) 0 (by omega)
    rw [he0]
    dsimp only
    unfold coefStatsLoop
    have hnone : getEntryJ? (invertMatrix (gramMatrix (List.map
        (fun r => (1 : ℚ) :: r) [[], []]))) (0 + 1) (0 + 1) = none :=
      getEntryJ?_none _ (by omega)
    rw [hnone]
    dsimp only
    rw [objSet_nil]
    rfl

/-- Counterexample to C3 as stated: a dummy mapping whose source column "S"
is absent from the header still yields a successful fit, but its design rows
are empty while the predictor list is not.  The slope stored under "S_b" is
the undefined read `regression.slopes[0]`, i.e. NaN in the output contract;
and inside the statistics block the read `XtXInv[1][1]` throws a TypeError
(`XtXInv` is 1×1), which the `try/catch` swallows, so `coefficientStats` is
truncated to its `Intercept` entry alone. -/
theorem performLinearRegression_missing_source_nan :
    (performLinearRegression testOps natParse [["Y"], ["1"], ["2"]] [] "Y"
        (some [("S", [("a", []), ("b", [])])])).toOption.map
      (fun r => (objGet? r.slopes "S_b", r.coefficientStats.map Prod.fst)) =
      some (some .nan, ["Intercept"]) := by
  rw [show performLinearRegression testOps natParse [["Y"], ["1"], ["2"]] [] "Y"
        (some [("S", [("a", []), ("b", [])])]) =
      performLinearRegressionCore testOps natParse [["Y"], ["1"], ["2"]] [] "Y"
        (some [("S", ["a", "b"])]) from rfl]
  unfold performLinearRegressionCore
  rw [if_neg (by decide)]
  dsimp only [Option.getD]
  rw [show idxOf? (headersOf [["Y"], ["1"], ["2"]]) "Y" = some 0 from by decide]
  dsimp only
  rw [show buildXIndices (headersOf [["Y"], ["1"], ["2"]])
      (actualCsvColumnsOf (headersOf [["Y"], ["1"], ["2"]]) []) = Except.ok []
    from rfl]
  dsimp only
  rw [if_neg (by decide)]
  dsimp only [Except.toOption, Option.map]
  rw [Option.some.injEq, Prod.mk.injEq]
  have hAC : actualCsvColumnsOf (headersOf [["Y"], ["1"], ["2"]]) [] = [] := rfl
  have hDN : dummyColumnNamesOf [("S", ["a", "b"])] = ["S_b"] := by decide
  have hrd : (((List.drop 1 [["Y"], ["1"], ["2"]]).filterMap
      (buildRow natParse [] [("S", ["a", "b"])]
        (dummySourceIndicesOf (headersOf [["Y"], ["1"], ["2"]]) [("S", ["a", "b"])])
        0)).map Prod.fst) = [[], []] := by decide
  rw [hAC, hDN, hrd]
  exact mkRegressionResult_missing_source _
